import Mathlib

/-!
Verification of the ctrader-gateway core against its source.

Shallow embedding conventions:
* byte buffers (`Buffer`, `Uint8Array`) are `List Nat` of byte values;
* JavaScript `Map` / plain objects used as dictionaries are association
  lists `List (key × value)` with `Map.get` / `Map.set` / `Map.delete`
  semantics (`mapGet` / `mapSet` / `mapDelete` below: first entry wins,
  `set` replaces in place or appends, `delete` removes the entry);
* fallible code returns `Except String` / `Option`;
* promise resolution and rejection are modelled as explicit events
  returned by the state-transition functions.
-/

/-- JS `Map.get` / hash-field get: the value of the first entry with the key. -/
def mapGet {α : Type} : List (String × α) → String → Option α
  | [], _ => none
  | p :: m, k => if p.1 = k then some p.2 else mapGet m k

/-- JS `Map.set` / hash-field set: replace the entry when the key is
present (keeping its position), otherwise append a fresh entry. -/
def mapSet {α : Type} : List (String × α) → String → α → List (String × α)
  | [], k, v => [(k, v)]
  | p :: m, k, v => if p.1 = k then (k, v) :: m else p :: mapSet m k v

/-- JS `Map.delete`: remove the entry stored under the key. -/
def mapDelete {α : Type} : List (String × α) → String → List (String × α)
  | [], _ => []
  | p :: m, k => if p.1 = k then mapDelete m k else p :: mapDelete m k

theorem mapSet_get_self {α : Type} (m : List (String × α)) (k : String) (v : α) :
    mapGet (mapSet m k v) k = some v := by
  induction m with
  | nil => simp [mapSet, mapGet]
  | cons p m ih =>
    by_cases hk : p.1 = k
    · simp [mapSet, hk, mapGet]
    · simp [mapSet, hk, mapGet, ih]

theorem mapSet_get_ne {α : Type} (m : List (String × α)) (k k' : String) (v : α)
    (h : k' ≠ k) : mapGet (mapSet m k v) k' = mapGet m k' := by
  have hkk : ¬ (k = k') := fun hh => h hh.symm
  induction m with
  | nil => simp [mapSet, mapGet, hkk]
  | cons p m ih =>
    by_cases hk : p.1 = k
    · have hpk : ¬ (p.1 = k') := by rw [hk]; exact hkk
      simp [mapSet, hk, mapGet, hkk, hpk]
    · by_cases hk' : p.1 = k'
      · simp [mapSet, hk, mapGet, hk', h]
      · simp [mapSet, hk, mapGet, hk', ih]

theorem mapDelete_get_self {α : Type} (m : List (String × α)) (k : String) :
    mapGet (mapDelete m k) k = none := by
  induction m with
  | nil => simp [mapDelete, mapGet]
  | cons p m ih =>
    by_cases hk : p.1 = k
    · simp [mapDelete, hk, ih]
    · simp [mapDelete, hk, mapGet, ih]

theorem mapDelete_get_ne {α : Type} (m : List (String × α)) (k k' : String)
    (h : k' ≠ k) : mapGet (mapDelete m k) k' = mapGet m k' := by
  have hkk : ¬ (k = k') := fun hh => h hh.symm
  induction m with
  | nil => simp [mapDelete]
  | cons p m ih =>
    by_cases hk : p.1 = k
    · have hpk : ¬ (p.1 = k') := by rw [hk]; exact hkk
      simp [mapDelete, hk, mapGet, hpk, hkk, ih]
    · by_cases hk' : p.1 = k'
      · simp [mapDelete, hk, mapGet, hk', h]
      · simp [mapDelete, hk, mapGet, hk', ih]

namespace Wire

/-- Big-endian 4-byte length prefix, as written by `buf.writeUInt32BE(len, 0)`. -/
def be32 (n : Nat) : List Nat :=
  [n / 2 ^ 24 % 256, n / 2 ^ 16 % 256, n / 2 ^ 8 % 256, n % 256]

/-- `Wire.frame` (wire.ts): one frame, the 4-byte big-endian length of the
payload (`payload.byteLength >>> 0`) followed by the payload bytes. -/
def frame (payload : List Nat) : List Nat :=
  be32 (payload.length % 2 ^ 32) ++ payload.take (payload.length % 2 ^ 32)

/-- `acc.readUInt32BE(offset)` at the head of the not-yet-consumed suffix. -/
def readBE32 : List Nat → Nat
  | a :: b :: c :: d :: _ => a * 2 ^ 24 + b * 2 ^ 16 + c * 2 ^ 8 + d
  | _ => 0

/-- `Wire.deframe` (wire.ts): split complete `[length][payload]` frames off
the front of the accumulator; stop when fewer than 4 bytes remain, when the
declared length is zero (malformed; tail preserved), or when the frame is
still incomplete. The `offset` loop of the source is rendered as recursion
on the not-yet-consumed suffix. -/
def deframe (acc : List Nat) : List (List Nat) × List Nat :=
  if h4 : 4 ≤ acc.length then
    if hz : readBE32 acc = 0 then ([], acc)
    else if hlt : acc.length < 4 + readBE32 acc then ([], acc)
    else
      ((acc.drop 4).take (readBE32 acc) :: (deframe (acc.drop (4 + readBE32 acc))).1,
        (deframe (acc.drop (4 + readBE32 acc))).2)
  else ([], acc)
termination_by acc.length
decreasing_by
  all_goals
    simp only [List.length_drop]
    omega

end Wire

theorem deframe_short {acc : List Nat} (h : acc.length < 4) :
    Wire.deframe acc = ([], acc) := by
  rw [Wire.deframe]
  rw [dif_neg (by omega)]

theorem deframe_zero {acc : List Nat} (h4 : 4 ≤ acc.length)
    (hz : Wire.readBE32 acc = 0) : Wire.deframe acc = ([], acc) := by
  rw [Wire.deframe]
  rw [dif_pos h4, dif_pos hz]

theorem deframe_stuck_incomplete {acc : List Nat} (h4 : 4 ≤ acc.length)
    (hz : Wire.readBE32 acc ≠ 0) (hlt : acc.length < 4 + Wire.readBE32 acc) :
    Wire.deframe acc = ([], acc) := by
  rw [Wire.deframe]
  rw [dif_pos h4, dif_neg hz, dif_pos hlt]

theorem deframe_step {acc : List Nat} (h4 : 4 ≤ acc.length)
    (hz : Wire.readBE32 acc ≠ 0) (hge : 4 + Wire.readBE32 acc ≤ acc.length) :
    Wire.deframe acc =
      ((acc.drop 4).take (Wire.readBE32 acc)
          :: (Wire.deframe (acc.drop (4 + Wire.readBE32 acc))).1,
        (Wire.deframe (acc.drop (4 + Wire.readBE32 acc))).2) := by
  rw [Wire.deframe]
  rw [dif_pos h4, dif_neg hz, dif_neg (by omega)]

theorem readBE32_append : ∀ (s t : List Nat), 4 ≤ s.length →
    Wire.readBE32 (s ++ t) = Wire.readBE32 s
  | a :: b :: c :: d :: s, _, _ => rfl
  | [], _, h => by simp at h
  | [a], _, h => by simp at h
  | [a, b], _, h => by simp at h
  | [a, b, c], _, h => by simp at h

theorem readBE32_be32 {n : Nat} (h : n < 2 ^ 32) (t : List Nat) :
    Wire.readBE32 (Wire.be32 n ++ t) = n := by
  simp only [Wire.be32, List.cons_append, List.nil_append, Wire.readBE32]
  omega

theorem be32_length (n : Nat) : (Wire.be32 n).length = 4 := by
  simp [Wire.be32]

theorem frame_eq {p : List Nat} (h : p.length < 2 ^ 32) :
    Wire.frame p = Wire.be32 p.length ++ p := by
  unfold Wire.frame
  rw [Nat.mod_eq_of_lt h, List.take_length]

/-- `deframe` is resumable: deframing a stream in one go is the same as
deframing a prefix, keeping its frames, and deframing the leftover tail
together with the remainder of the stream. -/
theorem deframe_append (s2 : List Nat) : ∀ (s1 : List Nat),
    Wire.deframe (s1 ++ s2) =
      ((Wire.deframe s1).1 ++ (Wire.deframe ((Wire.deframe s1).2 ++ s2)).1,
        (Wire.deframe ((Wire.deframe s1).2 ++ s2)).2) := by
  intro s1
  induction s1 using Wire.deframe.induct with
  | case1 acc h4 hz =>
    rw [show Wire.deframe acc = ([], acc) from deframe_zero h4 hz]
    have hr : Wire.readBE32 (acc ++ s2) = Wire.readBE32 acc :=
      readBE32_append acc s2 h4
    simp
  | case2 acc h4 hz hlt =>
    rw [show Wire.deframe acc = ([], acc) from deframe_stuck_incomplete h4 hz hlt]
    simp
  | case3 acc h4 hz hlt ih =>
    have hge : 4 + Wire.readBE32 acc ≤ acc.length := by omega
    have hr : Wire.readBE32 (acc ++ s2) = Wire.readBE32 acc :=
      readBE32_append acc s2 h4
    have hlen : 4 + Wire.readBE32 acc ≤ (acc ++ s2).length := by
      simp only [List.length_append]; omega
    have hdrop4 : (acc ++ s2).drop 4 = acc.drop 4 ++ s2 :=
      List.drop_append_of_le_length (by omega)
    have htake : (acc.drop 4 ++ s2).take (Wire.readBE32 acc)
        = (acc.drop 4).take (Wire.readBE32 acc) :=
      List.take_append_of_le_length (by simp only [List.length_drop]; omega)
    have hdropn : (acc ++ s2).drop (4 + Wire.readBE32 acc)
        = acc.drop (4 + Wire.readBE32 acc) ++ s2 :=
      List.drop_append_of_le_length (by omega)
    rw [deframe_step (by simp only [List.length_append]; omega)
        (by rw [hr]; exact hz) (by rw [hr]; exact hlen),
      deframe_step h4 hz hge]
    rw [hr, hdrop4, htake, hdropn, ih]
    simp
  | case4 acc h4 =>
    rw [show Wire.deframe acc = ([], acc) from deframe_short (by omega)]
    simp

/-- The tail returned by `deframe` is stuck: running `deframe` on it again
parses nothing. -/
theorem deframe_tail_stuck : ∀ (acc : List Nat),
    Wire.deframe (Wire.deframe acc).2 = ([], (Wire.deframe acc).2) := by
  intro acc
  induction acc using Wire.deframe.induct with
  | case1 acc h4 hz =>
    rw [show Wire.deframe acc = ([], acc) from deframe_zero h4 hz]
    exact deframe_zero h4 hz
  | case2 acc h4 hz hlt =>
    rw [show Wire.deframe acc = ([], acc) from deframe_stuck_incomplete h4 hz hlt]
    exact deframe_stuck_incomplete h4 hz hlt
  | case3 acc h4 hz hlt ih =>
    rw [deframe_step h4 hz (by omega)]
    exact ih
  | case4 acc h4 =>
    have hlt4 : acc.length < 4 := by omega
    rw [show Wire.deframe acc = ([], acc) from deframe_short hlt4]
    exact deframe_short hlt4

namespace Wire

/-- The caller protocol of `deframe` (`CTraderConnection.onData`): append
each incoming chunk to the unconsumed tail, re-invoke `deframe`, and
accumulate the parsed frames. -/
def feedChunks (chunks : List (List Nat)) : List (List Nat) × List Nat :=
  chunks.foldl
    (fun st c => (st.1 ++ (deframe (st.2 ++ c)).1, (deframe (st.2 ++ c)).2))
    ([], [])

end Wire

theorem feedChunks_foldl (chunks : List (List Nat)) :
    ∀ (done : List (List Nat)) (tail : List Nat),
      Wire.deframe tail = ([], tail) →
      chunks.foldl
          (fun st c => (st.1 ++ (Wire.deframe (st.2 ++ c)).1, (Wire.deframe (st.2 ++ c)).2))
          (done, tail)
        = (done ++ (Wire.deframe (tail ++ chunks.flatten)).1,
            (Wire.deframe (tail ++ chunks.flatten)).2) := by
  induction chunks with
  | nil =>
    intro done tail hst
    simp [hst]
  | cons c cs ih =>
    intro done tail hst
    simp only [List.foldl_cons, List.flatten_cons]
    rw [ih (done ++ (Wire.deframe (tail ++ c)).1) (Wire.deframe (tail ++ c)).2
        (deframe_tail_stuck (tail ++ c))]
    rw [show tail ++ (c ++ cs.flatten) = (tail ++ c) ++ cs.flatten from
      (List.append_assoc tail c cs.flatten).symm]
    rw [deframe_append cs.flatten (tail ++ c)]
    simp [List.append_assoc]

/-- Parsing a well-formed stream of framed nonempty payloads yields exactly
those payloads and an empty tail. -/
theorem deframe_join_frames : ∀ (ps : List (List Nat)),
    (∀ p ∈ ps, p ≠ [] ∧ p.length < 2 ^ 32) →
    Wire.deframe (ps.map Wire.frame).flatten = (ps, []) := by
  intro ps
  induction ps with
  | nil =>
    intro _
    have h0 : Wire.deframe [] = ([], []) := deframe_short (by simp)
    simpa using h0
  | cons p ps ih =>
    intro h
    obtain ⟨hne, hlt⟩ := h p (by simp)
    have hlen : p.length ≠ 0 := fun hh => hne (List.length_eq_zero.mp hh)
    have hstream : ((p :: ps).map Wire.frame).flatten
        = Wire.be32 p.length ++ (p ++ (ps.map Wire.frame).flatten) := by
      simp [frame_eq hlt, List.append_assoc]
    rw [hstream]
    set rest := (ps.map Wire.frame).flatten with hrest
    have hr : Wire.readBE32 (Wire.be32 p.length ++ (p ++ rest)) = p.length :=
      readBE32_be32 hlt (p ++ rest)
    have hL : (Wire.be32 p.length ++ (p ++ rest)).length
        = 4 + (p.length + rest.length) := by
      simp [be32_length]
    have hdrop4 : (Wire.be32 p.length ++ (p ++ rest)).drop 4 = p ++ rest := by
      have := List.drop_left (Wire.be32 p.length) (p ++ rest)
      rwa [be32_length] at this
    have htake : (p ++ rest).take p.length = p := List.take_left p rest
    have hdropn : (Wire.be32 p.length ++ (p ++ rest)).drop (4 + p.length) = rest := by
      have h2 : Wire.be32 p.length ++ (p ++ rest) = (Wire.be32 p.length ++ p) ++ rest := by
        simp [List.append_assoc]
      rw [h2]
      have := List.drop_left (Wire.be32 p.length ++ p) rest
      rwa [List.length_append, be32_length] at this
    rw [deframe_step (by omega) (by rw [hr]; exact hlen) (by rw [hr]; omega)]
    rw [hr, hdrop4, htake, hdropn,
      ih (fun q hq => h q (by simp [hq]))]

/-- C2 (amended): for every sequence of nonempty payloads, each shorter than
2^32 bytes (the range of the 32-bit length prefix), and every slicing of the
concatenated framed stream into chunks, iterated deframing — appending each
chunk to the unconsumed tail and re-invoking `deframe` — yields exactly the
payload sequence with an empty tail, independently of the slicing; moreover
an accumulator whose head declares a zero length terminates parsing with the
tail preserved. -/
theorem C2_frame_deframe_roundtrip (ps chunks : List (List Nat))
    (hps : ∀ p ∈ ps, p ≠ [] ∧ p.length < 2 ^ 32)
    (hcut : chunks.flatten = (ps.map Wire.frame).flatten) :
    Wire.feedChunks chunks = (ps, []) ∧
      (∀ s : List Nat, 4 ≤ s.length → Wire.readBE32 s = 0 →
        Wire.deframe s = ([], s)) := by
  constructor
  · unfold Wire.feedChunks
    rw [feedChunks_foldl chunks [] [] (deframe_short (by simp))]
    simp only [List.nil_append]
    rw [hcut, deframe_join_frames ps hps]
  · intro s h4 hz
    exact deframe_zero h4 hz

/-- C2 counterexample: the roundtrip in the claim fails for an empty
payload — `frame []` declares length zero, which `deframe` treats as
terminal, so iterated deframing of `frame []` yields no payloads at all
(instead of `[[]]`) and preserves the whole stream as the tail. -/
theorem C2_cex_empty_payload :
    Wire.feedChunks [Wire.frame []] = ([], [0, 0, 0, 0]) ∧
      Wire.feedChunks [Wire.frame []] ≠ ([[]], []) := by
  have hf : Wire.frame [] = [0, 0, 0, 0] := by decide
  have hd : Wire.deframe [0, 0, 0, 0] = ([], [0, 0, 0, 0]) :=
    deframe_zero (by decide) (by decide)
  constructor
  · unfold Wire.feedChunks
    simp [hf, hd]
  · unfold Wire.feedChunks
    simp [hf, hd]

/-- C2 witness: a two-payload stream sliced into chunks that split both the
length prefixes and the payloads is reassembled into exactly the payloads. -/
theorem C2_frame_deframe_roundtrip_witness :
    Wire.feedChunks [[0, 0, 0], [1, 1, 0], [0, 0, 2, 2, 3]] = ([[1], [2, 3]], []) :=
  (C2_frame_deframe_roundtrip [[1], [2, 3]] [[0, 0, 0], [1, 1, 0], [0, 0, 2, 2, 3]]
    (by decide) (by decide)).1

namespace QuoteBus

/-- Quote (quote-bus.ts). The numeric JS fields are never used
arithmetically by the bus, so they are modelled as integers;
`bid`/`ask`/`timestamp` are nullable. -/
structure Quote where
  userId : String
  env : String
  accountId : Int
  symbolId : Int
  bid : Option Int
  ask : Option Int
  timestamp : Option Int
deriving DecidableEq, Repr

/-- `qkey`: the packed string key of a `(user, env, account, symbol)` tuple. -/
def qkey (userId env : String) (accountId symbolId : Int) : String :=
  userId ++ ":" ++ env ++ ":" ++ toString accountId ++ ":" ++ toString symbolId

def keyOf (q : Quote) : String := qkey q.userId q.env q.accountId q.symbolId

/-- Quote-bus state: the `last` quote map and the `waiters` map. Waiters
are identified by opaque ids standing for their `resolve` callbacks. -/
structure BusState where
  last : List (String × Quote)
  waiters : List (String × List Nat)
deriving DecidableEq, Repr

/-- `QuoteBus.upsert`: store the quote under its key; if the key has a
non-empty waiter list, delete the list and resolve every waiter with the
quote. Returns the new state and the list of `(waiter, quote)` resolution
events delivered synchronously before `upsert` returns. -/
def upsert (st : BusState) (q : Quote) : BusState × List (Nat × Quote) :=
  let key := keyOf q
  let stored := mapSet st.last key q
  match mapGet st.waiters key with
  | none => ({ last := stored, waiters := st.waiters }, [])
  | some list =>
    if list.isEmpty then ({ last := stored, waiters := st.waiters }, [])
    else ({ last := stored, waiters := mapDelete st.waiters key },
          list.map (fun w => (w, q)))

/-- `QuoteBus.getLast`. -/
def getLast (st : BusState) (userId env : String) (accountId symbolId : Int) :
    Option Quote :=
  mapGet st.last (qkey userId env accountId symbolId)

end QuoteBus

/-- C4: after `upsert q`, `getLast` on q's `(userId, env, accountId,
symbolId)` key returns q; every waiter enqueued on that key before the
upsert is resolved with q before `upsert` returns; and the key's waiter
list is deleted. The hypothesis is the code invariant that the waiter map
never stores an empty list (`waitForNext` only stores appended non-empty
lists and `upsert` deletes whole lists). -/
theorem C4_upsert_getLast_waiters (st : QuoteBus.BusState) (q : QuoteBus.Quote)
    (hne : mapGet st.waiters (QuoteBus.keyOf q) ≠ some []) :
    QuoteBus.getLast (QuoteBus.upsert st q).1 q.userId q.env q.accountId q.symbolId
        = some q ∧
      (QuoteBus.upsert st q).2
        = (match mapGet st.waiters (QuoteBus.keyOf q) with
            | some l => l.map (fun w => (w, q))
            | none => []) ∧
      mapGet (QuoteBus.upsert st q).1.waiters (QuoteBus.keyOf q) = none := by
  unfold QuoteBus.upsert QuoteBus.getLast
  cases hm : mapGet st.waiters (QuoteBus.keyOf q) with
  | none =>
    simp only [hm]
    exact ⟨mapSet_get_self st.last (QuoteBus.keyOf q) q, trivial, trivial⟩
  | some l =>
    cases l with
    | nil => exact absurd hm hne
    | cons w ws =>
      simp only [hm, List.isEmpty_cons, Bool.false_eq_true, if_false]
      exact ⟨mapSet_get_self st.last (QuoteBus.keyOf q) q, trivial,
        mapDelete_get_self st.waiters (QuoteBus.keyOf q)⟩

/-- C4 witness: a concrete bus with two waiters parked on the quote's key. -/
theorem C4_upsert_getLast_waiters_witness :
    QuoteBus.getLast
        (QuoteBus.upsert
          ⟨[], [("u1:demo:42:1", [7, 8])]⟩
          ⟨"u1", "demo", 42, 1, some 11, some 12, none⟩).1
        "u1" "demo" 42 1
      = some ⟨"u1", "demo", 42, 1, some 11, some 12, none⟩ ∧
    (QuoteBus.upsert ⟨[], [("u1:demo:42:1", [7, 8])]⟩
        ⟨"u1", "demo", 42, 1, some 11, some 12, none⟩).2
      = (match mapGet [("u1:demo:42:1", [7, 8])]
            (QuoteBus.keyOf ⟨"u1", "demo", 42, 1, some 11, some 12, none⟩) with
          | some l => l.map (fun w => (w, ⟨"u1", "demo", 42, 1, some 11, some 12, none⟩))
          | none => []) ∧
    mapGet (QuoteBus.upsert ⟨[], [("u1:demo:42:1", [7, 8])]⟩
          ⟨"u1", "demo", 42, 1, some 11, some 12, none⟩).1.waiters
        (QuoteBus.keyOf ⟨"u1", "demo", 42, 1, some 11, some 12, none⟩)
      = none :=
  C4_upsert_getLast_waiters ⟨[], [("u1:demo:42:1", [7, 8])]⟩
    ⟨"u1", "demo", 42, 1, some 11, some 12, none⟩ (by decide)

namespace TokenStore

/-- Session (token-store.ts): optional fields are absent (`none`) rather
than null; `updatedAt` is a `Date.now()` timestamp. -/
structure Session where
  userId : String
  updatedAt : Nat
  env : Option String
  activeAccountId : Option Int
  accessTokenEnc : Option String
  refreshTokenEnc : Option String
deriving DecidableEq, Repr

/-- A patch passed to `patchSession`; only defined fields take effect. -/
structure SessionPatch where
  env : Option String
  activeAccountId : Option Int
  accessTokenEnc : Option String
  refreshTokenEnc : Option String
deriving DecidableEq, Repr

/-- The fallback `{ userId, updatedAt: Date.now() }` used when no session
is stored. -/
def emptySession (userId : String) (now : Nat) : Session :=
  { userId := userId, updatedAt := now, env := none, activeAccountId := none,
    accessTokenEnc := none, refreshTokenEnc := none }

/-- The object-spread merge inside `patchSession`: the defined fields of
the current session are written first, then the defined fields of the
patch; an undefined field is never written (in particular never as null). -/
def mergeSession (cur : Session) (patch : SessionPatch) (now : Nat) : Session :=
  { userId := cur.userId
    updatedAt := now
    env := match patch.env with | some v => some v | none => cur.env
    activeAccountId :=
      match patch.activeAccountId with | some v => some v | none => cur.activeAccountId
    accessTokenEnc :=
      match patch.accessTokenEnc with | some v => some v | none => cur.accessTokenEnc
    refreshTokenEnc :=
      match patch.refreshTokenEnc with | some v => some v | none => cur.refreshTokenEnc }

/-- `patchSession`: read-modify-write against the stored session. -/
def patchSession (stored : Option Session) (userId : String)
    (patch : SessionPatch) (now : Nat) : Session :=
  mergeSession (stored.getD (emptySession userId now)) patch now

/-- A sequence of `patchSession` calls applied to an initially absent
session; each patch carries the `Date.now()` at which it runs. -/
def applyPatches (userId : String) (patches : List (SessionPatch × Nat)) :
    Option Session :=
  patches.foldl (fun st pc => some (patchSession st userId pc.1 pc.2)) none

/-- The keys present in `JSON.stringify` of a session: absent optional
fields are omitted entirely, never serialized as null. -/
def sessionJsonKeys (s : Session) : List String :=
  ["userId", "updatedAt"]
    ++ (if s.env.isSome then ["env"] else [])
    ++ (if s.activeAccountId.isSome then ["activeAccountId"] else [])
    ++ (if s.accessTokenEnc.isSome then ["accessTokenEnc"] else [])
    ++ (if s.refreshTokenEnc.isSome then ["refreshTokenEnc"] else [])

end TokenStore

theorem applyPatches_preserves_none {β : Type}
    (f : TokenStore.Session → Option β) (g : TokenStore.SessionPatch → Option β)
    (hmerge : ∀ cur patch now, g patch = none →
      f (TokenStore.mergeSession cur patch now) = f cur)
    (hempty : ∀ u n, f (TokenStore.emptySession u n) = none)
    (userId : String) :
    ∀ (patches : List (TokenStore.SessionPatch × Nat))
      (st : Option TokenStore.Session),
      (∀ p ∈ patches, g p.1 = none) →
      (∀ s, st = some s → f s = none) →
      ∀ s, patches.foldl
          (fun st pc => some (TokenStore.patchSession st userId pc.1 pc.2)) st
        = some s → f s = none := by
  intro patches
  induction patches with
  | nil =>
    intro st h hst s hs
    simp only [List.foldl_nil] at hs
    exact hst s hs
  | cons pc pcs ih =>
    intro st h hst s hs
    simp only [List.foldl_cons] at hs
    refine ih _ (fun p hp => h p (by simp [hp])) ?_ s hs
    intro s' hs'
    have heq : s' = TokenStore.patchSession st userId pc.1 pc.2 := by
      injection hs' with h'
      exact h'.symm
    subst heq
    unfold TokenStore.patchSession
    rw [hmerge _ _ _ (h pc (by simp))]
    cases st with
    | none => simpa using hempty userId pc.2
    | some s0 => simpa using hst s0 rfl

theorem env_not_mem_keys {s : TokenStore.Session} (h : s.env = none) :
    "env" ∉ TokenStore.sessionJsonKeys s := by
  unfold TokenStore.sessionJsonKeys
  rw [h]
  split_ifs <;> simp_all

theorem activeAccountId_not_mem_keys {s : TokenStore.Session}
    (h : s.activeAccountId = none) :
    "activeAccountId" ∉ TokenStore.sessionJsonKeys s := by
  unfold TokenStore.sessionJsonKeys
  rw [h]
  split_ifs <;> simp_all

theorem accessTokenEnc_not_mem_keys {s : TokenStore.Session}
    (h : s.accessTokenEnc = none) :
    "accessTokenEnc" ∉ TokenStore.sessionJsonKeys s := by
  unfold TokenStore.sessionJsonKeys
  rw [h]
  split_ifs <;> simp_all

theorem refreshTokenEnc_not_mem_keys {s : TokenStore.Session}
    (h : s.refreshTokenEnc = none) :
    "refreshTokenEnc" ∉ TokenStore.sessionJsonKeys s := by
  unfold TokenStore.sessionJsonKeys
  rw [h]
  split_ifs <;> simp_all

/-- C5: (i) a single `patchSession` merge keeps the stored value of each of
`env`, `activeAccountId`, `accessTokenEnc`, `refreshTokenEnc` whenever the
patch leaves that field undefined; (ii) over any sequence of patches from
an initially absent session, a field never present in any patch stays
absent in the result, and its key does not occur in the persisted JSON at
all — it is never written as null. -/
theorem C5_patchSession_frame (cur : TokenStore.Session)
    (patch : TokenStore.SessionPatch) (now : Nat) (userId : String)
    (patches : List (TokenStore.SessionPatch × Nat)) (s : TokenStore.Session)
    (hs : TokenStore.applyPatches userId patches = some s) :
    (patch.env = none →
      (TokenStore.mergeSession cur patch now).env = cur.env) ∧
    (patch.activeAccountId = none →
      (TokenStore.mergeSession cur patch now).activeAccountId = cur.activeAccountId) ∧
    (patch.accessTokenEnc = none →
      (TokenStore.mergeSession cur patch now).accessTokenEnc = cur.accessTokenEnc) ∧
    (patch.refreshTokenEnc = none →
      (TokenStore.mergeSession cur patch now).refreshTokenEnc = cur.refreshTokenEnc) ∧
    ((∀ p ∈ patches, p.1.env = none) →
      s.env = none ∧ "env" ∉ TokenStore.sessionJsonKeys s) ∧
    ((∀ p ∈ patches, p.1.activeAccountId = none) →
      s.activeAccountId = none ∧
        "activeAccountId" ∉ TokenStore.sessionJsonKeys s) ∧
    ((∀ p ∈ patches, p.1.accessTokenEnc = none) →
      s.accessTokenEnc = none ∧
        "accessTokenEnc" ∉ TokenStore.sessionJsonKeys s) ∧
    ((∀ p ∈ patches, p.1.refreshTokenEnc = none) →
      s.refreshTokenEnc = none ∧
        "refreshTokenEnc" ∉ TokenStore.sessionJsonKeys s) := by
  refine ⟨?_, ?_, ?_, ?_, ?_, ?_, ?_, ?_⟩
  · intro hg; simp [TokenStore.mergeSession, hg]
  · intro hg; simp [TokenStore.mergeSession, hg]
  · intro hg; simp [TokenStore.mergeSession, hg]
  · intro hg; simp [TokenStore.mergeSession, hg]
  · intro h
    have hnone := applyPatches_preserves_none
      (fun s => s.env) (fun p => p.env)
      (fun cur patch now hg => by simp [TokenStore.mergeSession, hg])
      (fun u n => rfl) userId patches none h (fun s hs => by cases hs) s hs
    exact ⟨hnone, env_not_mem_keys hnone⟩
  · intro h
    have hnone := applyPatches_preserves_none
      (fun s => s.activeAccountId) (fun p => p.activeAccountId)
      (fun cur patch now hg => by simp [TokenStore.mergeSession, hg])
      (fun u n => rfl) userId patches none h (fun s hs => by cases hs) s hs
    exact ⟨hnone, activeAccountId_not_mem_keys hnone⟩
  · intro h
    have hnone := applyPatches_preserves_none
      (fun s => s.accessTokenEnc) (fun p => p.accessTokenEnc)
      (fun cur patch now hg => by simp [TokenStore.mergeSession, hg])
      (fun u n => rfl) userId patches none h (fun s hs => by cases hs) s hs
    exact ⟨hnone, accessTokenEnc_not_mem_keys hnone⟩
  · intro h
    have hnone := applyPatches_preserves_none
      (fun s => s.refreshTokenEnc) (fun p => p.refreshTokenEnc)
      (fun cur patch now hg => by simp [TokenStore.mergeSession, hg])
      (fun u n => rfl) userId patches none h (fun s hs => by cases hs) s hs
    exact ⟨hnone, refreshTokenEnc_not_mem_keys hnone⟩

/-- C5 witness: a concrete patch sequence that never touches
`refreshTokenEnc`; the field stays absent from the persisted JSON. -/
theorem C5_patchSession_frame_witness :
    (⟨"u1", 100, some "live", none, some "enc1", none⟩ :
        TokenStore.Session).refreshTokenEnc = none ∧
      "refreshTokenEnc" ∉ TokenStore.sessionJsonKeys
        ⟨"u1", 100, some "live", none, some "enc1", none⟩ :=
  (C5_patchSession_frame (TokenStore.emptySession "u0" 0)
      ⟨none, none, none, none⟩ 0 "u1"
      [(⟨some "live", none, some "enc1", none⟩, 100)]
      ⟨"u1", 100, some "live", none, some "enc1", none⟩
      (by decide)).2.2.2.2.2.2.2
    (by decide)

/-- ASCII whitespace, as stripped by JS `String.prototype.trim`. -/
def isWhite (c : Char) : Bool :=
  c = ' ' ∨ c = '\t' ∨ c = '\n' ∨ c = '\r'

/-- JS `String.prototype.trim`: strip leading and trailing whitespace. -/
def jsTrim (s : String) : String :=
  String.mk (((s.data.dropWhile isWhite).reverse.dropWhile isWhite).reverse)

/-- JS `String.prototype.toUpperCase` on the ASCII range. -/
def jsToUpper (s : String) : String :=
  String.mk (s.data.map Char.toUpper)

namespace SymbolStore

/-- The Redis hash behind `symbols:<userId>:<env>:<accountId>`, field to
stored number. The string round-trip through the hash (`String(id)` on
write, `Number(s)` on read) is the identity on the stored numbers and is
modelled as such. -/
abbrev Hash := List (String × Int)

/-- `toNum` (symbol-store.ts): only finite positive numbers are accepted;
anything else maps to null. -/
def toNum (x : Option Int) : Option Int :=
  match x with
  | none => none
  | some n => if 0 < n then some n else none

/-- `getSymbolId`: one hash-field fetch of the trimmed, uppercased symbol,
filtered through `toNum`. -/
def getSymbolId (hash : Hash) (symbol : String) : Option Int :=
  toNum (mapGet hash (jsToUpper (jsTrim symbol)))

/-- `replaceAll`: `DEL` the hash, then `HSET` every entry of the map; the
TTL applied afterwards does not affect the contents. -/
def replaceAll (_hash : Hash) (entries : List (String × Int)) : Hash :=
  entries.foldl (fun h e => mapSet h e.1 e.2) []

/-- `count`: `HLEN` of the hash. -/
def count (hash : Hash) : Nat := hash.length

end SymbolStore

theorem buildMap_get_not_mem (entries : List (String × Int)) :
    ∀ (h0 : SymbolStore.Hash) (k : String), k ∉ entries.map Prod.fst →
      mapGet (entries.foldl (fun h e => mapSet h e.1 e.2) h0) k = mapGet h0 k := by
  induction entries with
  | nil => intro h0 k _; rfl
  | cons e es ih =>
    intro h0 k hk
    simp only [List.map_cons, List.mem_cons] at hk
    push_neg at hk
    simp only [List.foldl_cons]
    rw [ih _ k hk.2, mapSet_get_ne _ _ _ _ hk.1]

theorem buildMap_get_mem (entries : List (String × Int)) :
    ∀ (h0 : SymbolStore.Hash) (k : String) (v : Int),
      (entries.map Prod.fst).Nodup → (k, v) ∈ entries →
      mapGet (entries.foldl (fun h e => mapSet h e.1 e.2) h0) k = some v := by
  induction entries with
  | nil => intro h0 k v _ hm; cases hm
  | cons e es ih =>
    intro h0 k v hnd hm
    simp only [List.map_cons, List.nodup_cons] at hnd
    simp only [List.foldl_cons]
    rcases List.mem_cons.mp hm with he | hes
    · have hk : e.1 = k := by rw [← he]
      have hnm : k ∉ es.map Prod.fst := by rw [← hk]; exact hnd.1
      rw [buildMap_get_not_mem es _ k hnm, hk]
      have hv : e.2 = v := by rw [← he]
      rw [← hv]
      exact mapSet_get_self h0 k e.2
    · exact ih _ k v hnd.2 hes

theorem mapSet_length_of_none {α : Type} (m : List (String × α)) (k : String)
    (v : α) (h : mapGet m k = none) : (mapSet m k v).length = m.length + 1 := by
  induction m with
  | nil => simp [mapSet]
  | cons p m ih =>
    by_cases hk : p.1 = k
    · simp [mapGet, hk] at h
    · simp only [mapGet, hk, if_false] at h
      simp [mapSet, hk, ih h]

theorem buildMap_length (entries : List (String × Int)) :
    ∀ (h0 : SymbolStore.Hash),
      (entries.map Prod.fst).Nodup →
      (∀ e ∈ entries, mapGet h0 e.1 = none) →
      (entries.foldl (fun h e => mapSet h e.1 e.2) h0).length
        = h0.length + entries.length := by
  induction entries with
  | nil => intro h0 _ _; simp
  | cons e es ih =>
    intro h0 hnd hfresh
    simp only [List.map_cons, List.nodup_cons] at hnd
    simp only [List.foldl_cons]
    rw [ih _ hnd.2 ?_]
    · rw [mapSet_length_of_none h0 e.1 e.2 (hfresh e (by simp))]
      simp [List.length_cons]
      omega
    · intro e' he'
      have hne : e'.1 ≠ e.1 := by
        intro hh
        exact hnd.1 (by rw [← hh]; exact List.mem_map_of_mem Prod.fst he')
      rw [mapSet_get_ne _ _ _ _ hne]
      exact hfresh e' (by simp [he'])

/-- C6 (amended): after `replaceAll(M)` with distinct keys, `getSymbolId`
returns the id of every entry of M whose key is its own trimmed uppercased
form and whose id is positive; `count` returns `|M|`; and `getSymbolId`
returns null for every symbol whose normalized form is not a key of M (in
particular for every key present before the `replaceAll`). The
normalization and positivity conditions are forced by the code:
`getSymbolId` uppercases the queried symbol and its `toNum` maps
non-positive stored values to null. -/
theorem C6_replaceAll_contract (hash : SymbolStore.Hash)
    (entries : List (String × Int))
    (hnd : (entries.map Prod.fst).Nodup) :
    (∀ k v, (k, v) ∈ entries → jsToUpper (jsTrim k) = k → 0 < v →
      SymbolStore.getSymbolId (SymbolStore.replaceAll hash entries) k = some v) ∧
    SymbolStore.count (SymbolStore.replaceAll hash entries) = entries.length ∧
    (∀ k', jsToUpper (jsTrim k') ∉ entries.map Prod.fst →
      SymbolStore.getSymbolId (SymbolStore.replaceAll hash entries) k' = none) := by
  refine ⟨?_, ?_, ?_⟩
  · intro k v hm hnorm hv
    unfold SymbolStore.getSymbolId SymbolStore.replaceAll
    rw [hnorm, buildMap_get_mem entries [] k v hnd hm]
    simp [SymbolStore.toNum, hv]
  · unfold SymbolStore.count SymbolStore.replaceAll
    rw [buildMap_length entries [] hnd (fun e _ => rfl)]
    simp
  · intro k' hk'
    unfold SymbolStore.getSymbolId SymbolStore.replaceAll
    rw [buildMap_get_not_mem entries [] (jsToUpper (jsTrim k')) hk']
    rfl

/-- C6 counterexample: the claim as stated fails for an entry with a
non-positive id — after `replaceAll` of `{EURUSD ↦ 0}`, `getSymbolId`
returns null (its `toNum` rejects non-positive values), not 0. -/
theorem C6_cex_nonpositive_id :
    ("EURUSD", (0 : Int)) ∈ [("EURUSD", (0 : Int))] ∧
      SymbolStore.getSymbolId
          (SymbolStore.replaceAll [] [("EURUSD", (0 : Int))]) "EURUSD"
        ≠ some 0 := by
  exact ⟨by simp, by decide⟩

/-- C6 witness: entries written by `replaceAll` are found, the count is
the map size, and a key present before the call is gone. -/
theorem C6_replaceAll_contract_witness :
    SymbolStore.getSymbolId
        (SymbolStore.replaceAll [("OLD", (9 : Int))]
          [("EURUSD", (1 : Int)), ("EURGBP", (2 : Int))]) "EURUSD" = some 1 ∧
      SymbolStore.count
        (SymbolStore.replaceAll [("OLD", (9 : Int))]
          [("EURUSD", (1 : Int)), ("EURGBP", (2 : Int))]) = 2 ∧
      SymbolStore.getSymbolId
        (SymbolStore.replaceAll [("OLD", (9 : Int))]
          [("EURUSD", (1 : Int)), ("EURGBP", (2 : Int))]) "OLD" = none := by
  have h := C6_replaceAll_contract [("OLD", (9 : Int))]
    [("EURUSD", (1 : Int)), ("EURGBP", (2 : Int))] (by decide)
  exact ⟨h.1 "EURUSD" 1 (by decide) (by decide) (by decide),
    h.2.1, h.2.2 "OLD" (by decide)⟩

namespace CTraderGateway

/-- The `{NAME → id}` map built by `refreshSymbols` from the decoded
upstream `PROTO_OA_SYMBOLS_LIST_RES` symbol list: each name is uppercased
then trimmed, entries with empty names are dropped, and later duplicates
win (`Map.set`). Upstream ids are modelled as integers, for which
`Number.isFinite` always holds. -/
def buildSymbolMap (upstream : List (String × Int)) : List (String × Int) :=
  upstream.foldl
    (fun m s =>
      if jsTrim (jsToUpper s.1) = "" then m
      else mapSet m (jsTrim (jsToUpper s.1)) s.2)
    []

/-- `refreshSymbols` as it affects the symbol hash: build the name map and
`replaceAll` it into the store. -/
def refreshSymbols (hash : SymbolStore.Hash) (upstream : List (String × Int)) :
    SymbolStore.Hash :=
  SymbolStore.replaceAll hash (buildSymbolMap upstream)

/-- `ensureSymbolId` (ctrader-gateway.ts): look the trimmed uppercased
symbol up in the hash; on a miss refresh the catalog once from the
upstream list and retry; if the id is still missing fail with
"Symbol not found: <symbol>". Returns the outcome, the resulting hash, and
the number of refreshes performed. -/
def ensureSymbolId (hash : SymbolStore.Hash) (upstream : List (String × Int))
    (symbol : String) : Except String Int × SymbolStore.Hash × Nat :=
  match SymbolStore.getSymbolId hash (jsToUpper (jsTrim symbol)) with
  | some id => (Except.ok id, hash, 0)
  | none =>
    match SymbolStore.getSymbolId (refreshSymbols hash upstream)
        (jsToUpper (jsTrim symbol)) with
    | some id => (Except.ok id, refreshSymbols hash upstream, 1)
    | none =>
      (Except.error ("Symbol not found: " ++ symbol), refreshSymbols hash upstream, 1)

end CTraderGateway

/-- C7: `ensureSymbolId` never refreshes the catalog more than once per
call; a hit on the first lookup returns that id with no refresh; a miss
refreshes exactly once and returns the id found on retry; and the call
fails with "Symbol not found" exactly when the symbol is missing both
before and after the single refresh. -/
theorem C7_ensureSymbolId_refresh_once (hash : SymbolStore.Hash)
    (upstream : List (String × Int)) (symbol : String) :
    (CTraderGateway.ensureSymbolId hash upstream symbol).2.2 ≤ 1 ∧
    (∀ id, SymbolStore.getSymbolId hash (jsToUpper (jsTrim symbol)) = some id →
      CTraderGateway.ensureSymbolId hash upstream symbol
        = (Except.ok id, hash, 0)) ∧
    (∀ id, SymbolStore.getSymbolId hash (jsToUpper (jsTrim symbol)) = none →
      SymbolStore.getSymbolId (CTraderGateway.refreshSymbols hash upstream)
          (jsToUpper (jsTrim symbol)) = some id →
      CTraderGateway.ensureSymbolId hash upstream symbol
        = (Except.ok id, CTraderGateway.refreshSymbols hash upstream, 1)) ∧
    ((CTraderGateway.ensureSymbolId hash upstream symbol).1
        = Except.error ("Symbol not found: " ++ symbol) ↔
      SymbolStore.getSymbolId hash (jsToUpper (jsTrim symbol)) = none ∧
        SymbolStore.getSymbolId (CTraderGateway.refreshSymbols hash upstream)
          (jsToUpper (jsTrim symbol)) = none) := by
  unfold CTraderGateway.ensureSymbolId
  cases h1 : SymbolStore.getSymbolId hash (jsToUpper (jsTrim symbol)) with
  | some id =>
    refine ⟨by simp, ?_, ?_, ?_⟩
    · intro id0 hid0
      injection hid0 with h'
      rw [h']
    · intro id0 hid0
      exact Option.noConfusion hid0
    · simp
  | none =>
    cases h2 : SymbolStore.getSymbolId (CTraderGateway.refreshSymbols hash upstream)
        (jsToUpper (jsTrim symbol)) with
    | some id =>
      refine ⟨by simp, ?_, ?_, ?_⟩
      · intro id0 hid0
        exact Option.noConfusion hid0
      · intro id0 _ hid0
        injection hid0 with h'
        rw [h']
      · simp
    | none =>
      refine ⟨by simp, ?_, ?_, ?_⟩
      · intro id0 hid0
        exact Option.noConfusion hid0
      · intro id0 _ hid0
        exact Option.noConfusion hid0
      · simp

/-- C7 witness: a cached miss followed by a successful refresh — the call
refreshes exactly once and returns the freshly cached id. -/
theorem C7_ensureSymbolId_refresh_once_witness :
    CTraderGateway.ensureSymbolId [] [("eurusd", (1 : Int))] "EURUSD"
        = (Except.ok 1,
            CTraderGateway.refreshSymbols [] [("eurusd", (1 : Int))], 1) ∧
      (CTraderGateway.ensureSymbolId [] [("eurusd", (1 : Int))] "EURUSD").2.2 ≤ 1 :=
  ⟨((C7_ensureSymbolId_refresh_once [] [("eurusd", (1 : Int))] "EURUSD").2.2.1)
      1 (by decide) (by decide),
    (C7_ensureSymbolId_refresh_once [] [("eurusd", (1 : Int))] "EURUSD").1⟩

namespace CTraderGateway

/-- TradeRequest (ctrader-gateway.ts): the fields inspected by the
validation stage of `placeTrade`. JS numbers are modelled as rationals;
non-finite values are outside the model, and on rationals
`Number.isFinite` always holds. -/
structure TradeRequest where
  side : String
  orderType : String
  volumeUnits : Rat
  limitPrice : Option Rat
  stopPrice : Option Rat
  stopLoss : Option Rat
  takeProfit : Option Rat
  stopLossDistance : Option Rat
  takeProfitDistance : Option Rat
  comment : Option String
  label : Option String
deriving DecidableEq, Repr

/-- The `base` object encoded as PROTO_OA_NEW_ORDER_REQ. -/
structure NewOrderReq where
  tradeSide : String
  orderType : String
  volume : Int
  limitPrice : Option Rat
  stopPrice : Option Rat
  stopLoss : Option Rat
  takeProfit : Option Rat
  stopLossDistance : Option Rat
  takeProfitDistance : Option Rat
  comment : Option String
  label : Option String
deriving DecidableEq, Repr

/-- `Math.round`: round half toward positive infinity. -/
def jsRound (x : Rat) : Int := Int.floor (x + 1 / 2)

/-- The validation and payload-building stage of `placeTrade`, reached
after env, account id, account auth and symbol id have been resolved:
uppercase side and order type, check the side, scale and check the volume,
then enforce the per-order-type price-field rules, in source order. -/
def validateTrade (req : TradeRequest) : Except String NewOrderReq :=
  if ¬ jsToUpper req.side = "BUY" ∧ ¬ jsToUpper req.side = "SELL" then
    Except.error "side must be BUY or SELL"
  else if jsRound (req.volumeUnits * 100) ≤ 0 then
    Except.error "volumeUnits must be > 0"
  else if jsToUpper req.orderType = "LIMIT" ∧ req.limitPrice = none then
    Except.error "limitPrice is required for LIMIT"
  else if (jsToUpper req.orderType = "STOP" ∨ jsToUpper req.orderType = "STOP_LIMIT")
      ∧ req.stopPrice = none then
    Except.error "stopPrice is required for STOP/STOP_LIMIT"
  else if jsToUpper req.orderType = "MARKET"
      ∧ (req.stopLoss ≠ none ∨ req.takeProfit ≠ none) then
    Except.error
      "For MARKET orders, stopLoss/takeProfit absolute prices are not allowed. Use stopLossDistance/takeProfitDistance."
  else
    Except.ok
      { tradeSide := jsToUpper req.side
        orderType := jsToUpper req.orderType
        volume := jsRound (req.volumeUnits * 100)
        limitPrice :=
          if jsToUpper req.orderType = "LIMIT" then req.limitPrice else none
        stopPrice :=
          if jsToUpper req.orderType = "STOP" ∨ jsToUpper req.orderType = "STOP_LIMIT"
          then req.stopPrice else none
        stopLoss :=
          if jsToUpper req.orderType = "MARKET" then none else req.stopLoss
        takeProfit :=
          if jsToUpper req.orderType = "MARKET" then none else req.takeProfit
        stopLossDistance :=
          if jsToUpper req.orderType = "MARKET" then req.stopLossDistance else none
        takeProfitDistance :=
          if jsToUpper req.orderType = "MARKET" then req.takeProfitDistance else none
        comment := match req.comment with
          | some c => if c = "" then none else some c
          | none => none
        label := match req.label with
          | some c => if c = "" then none else some c
          | none => none }

/-- Whether a step of the gateway rejects. -/
def isErr {ε α : Type} : Except ε α → Bool
  | Except.error _ => true
  | Except.ok _ => false

end CTraderGateway

set_option maxHeartbeats 1000000 in
/-- C8: the validation stage of `placeTrade` rejects — before any
PROTO_OA_NEW_ORDER_REQ is sent — exactly when one of the five conditions
holds: uppercased side is neither BUY nor SELL; `round(volumeUnits*100)`
is not positive (`Number.isFinite` always holds on the rational model);
LIMIT without limitPrice; STOP or STOP_LIMIT without stopPrice; or MARKET
with an absolute stopLoss or takeProfit. Failures of the earlier
resolution steps (token, account, symbol) are outside the validation
stage. -/
theorem C8_placeTrade_validation (req : CTraderGateway.TradeRequest) :
    CTraderGateway.isErr (CTraderGateway.validateTrade req) = true ↔
      ((¬ jsToUpper req.side = "BUY" ∧ ¬ jsToUpper req.side = "SELL")
        ∨ CTraderGateway.jsRound (req.volumeUnits * 100) ≤ 0
        ∨ (jsToUpper req.orderType = "LIMIT" ∧ req.limitPrice = none)
        ∨ ((jsToUpper req.orderType = "STOP" ∨ jsToUpper req.orderType = "STOP_LIMIT")
            ∧ req.stopPrice = none)
        ∨ (jsToUpper req.orderType = "MARKET"
            ∧ (req.stopLoss ≠ none ∨ req.takeProfit ≠ none))) := by
  unfold CTraderGateway.validateTrade
  split_ifs with h1 h2 h3 h4 h5 <;>
    simp only [CTraderGateway.isErr] <;>
    tauto

/-- Hex digit, as matched by the regex class `[0-9a-fA-F]`. -/
def isHexDigit (c : Char) : Bool :=
  ('0' ≤ c ∧ c ≤ '9') ∨ ('a' ≤ c ∧ c ≤ 'f') ∨ ('A' ≤ c ∧ c ≤ 'F')

/-- The regex `^[0-9a-fA-F]{64}$`. -/
def isHex64 (s : String) : Bool :=
  s.data.length == 64 && s.data.all isHexDigit

/-- Numeric value of a hex digit. -/
def hexVal (c : Char) : Nat :=
  if '0' ≤ c ∧ c ≤ '9' then c.toNat - 48
  else if 'a' ≤ c ∧ c ≤ 'f' then c.toNat - 87
  else if 'A' ≤ c ∧ c ≤ 'F' then c.toNat - 55
  else 0

/-- `Buffer.from(v, "hex")`: consecutive digit pairs to bytes. -/
def hexBytes : List Char → List Nat
  | a :: b :: rest => (hexVal a * 16 + hexVal b) :: hexBytes rest
  | _ => []

/-- Value of a base64 alphabet character; `none` for every other
character (Node's forgiving decoder skips them, padding included). -/
def b64Val (c : Char) : Option Nat :=
  if 'A' ≤ c ∧ c ≤ 'Z' then some (c.toNat - 65)
  else if 'a' ≤ c ∧ c ≤ 'z' then some (c.toNat - 71)
  else if '0' ≤ c ∧ c ≤ '9' then some (c.toNat + 4)
  else if c = '+' then some 62
  else if c = '/' then some 63
  else none

/-- Regroup 6-bit values into bytes: four values yield three bytes, a
trailing pair yields one byte, a trailing triple yields two, a lone
leftover yields nothing (Buffer base64 semantics). -/
def b64Chunks : List Nat → List Nat
  | a :: b :: c :: d :: rest =>
      (a * 4 + b / 16) :: (b % 16 * 16 + c / 4) :: (c % 4 * 64 + d) :: b64Chunks rest
  | [a, b] => [a * 4 + b / 16]
  | [a, b, c] => [a * 4 + b / 16, b % 16 * 16 + c / 4]
  | _ => []

/-- `Buffer.from(v, "base64")`. -/
def b64Decode (s : String) : List Nat :=
  b64Chunks (s.data.filterMap b64Val)

theorem hexBytes_length : ∀ (l : List Char), (hexBytes l).length = l.length / 2
  | [] => by simp [hexBytes]
  | [_] => by simp [hexBytes]
  | a :: b :: rest => by
    simp only [hexBytes, List.length_cons, hexBytes_length rest]
    omega

namespace TokenCrypto

/-- `hexToKey32` (token-crypto.js): accept exactly 64 hex characters and
decode them to the 32-byte key; reject everything else. This is the key
handling used by the `TokenCrypto` constructor. -/
def hexToKey32 (hex : String) : Except String (List Nat) :=
  if isHex64 (jsTrim hex) then Except.ok (hexBytes (jsTrim hex).data)
  else Except.error
    "TOKEN_ENCRYPTION_KEY must be 64 hex chars (32 bytes). Example: 64-char hex string."

end TokenCrypto

namespace EnvConfig

/-- `decodeKey32` (env.ts): accept 64 hex characters, or any base64 string
decoding to exactly 32 bytes. -/
def decodeKey32 (value : String) : Except String (List Nat) :=
  if isHex64 (jsTrim value) then Except.ok (hexBytes (jsTrim value).data)
  else if (b64Decode (jsTrim value)).length = 32 then
    Except.ok (b64Decode (jsTrim value))
  else Except.error "TOKEN_ENCRYPTION_KEY must decode to 32 bytes (hex64 or base64)"

end EnvConfig

/-- C9 (amended): the helper `decodeKey32` accepts both key forms — 64 hex
characters, or base64 decoding to 32 bytes — returning the decoded 32-byte
key; but the `TokenCrypto` constructor decodes through `hexToKey32`, which
succeeds exactly on the 64-hex form, so construction fails for a key
supplied only in base64 form. -/
theorem C9_key_forms (s : String) :
    (isHex64 (jsTrim s) = true →
      TokenCrypto.hexToKey32 s = Except.ok (hexBytes (jsTrim s).data) ∧
      EnvConfig.decodeKey32 s = Except.ok (hexBytes (jsTrim s).data) ∧
      (hexBytes (jsTrim s).data).length = 32) ∧
    (isHex64 (jsTrim s) = false → (b64Decode (jsTrim s)).length = 32 →
      EnvConfig.decodeKey32 s = Except.ok (b64Decode (jsTrim s)) ∧
      ∃ e, TokenCrypto.hexToKey32 s = Except.error e) := by
  constructor
  · intro h
    have hlen : (jsTrim s).data.length = 64 := by
      have := h
      simp only [isHex64, Bool.and_eq_true, beq_iff_eq] at this
      exact this.1
    refine ⟨?_, ?_, ?_⟩
    · unfold TokenCrypto.hexToKey32
      rw [if_pos h]
    · unfold EnvConfig.decodeKey32
      rw [if_pos h]
    · rw [hexBytes_length, hlen]
  · intro h hlen
    constructor
    · unfold EnvConfig.decodeKey32
      rw [if_neg (by simp [h]), if_pos hlen]
    · unfold TokenCrypto.hexToKey32
      rw [if_neg (by simp [h])]
      exact ⟨_, rfl⟩

/-- C9 counterexample: a valid base64 encoding of 32 bytes (32 times byte
65) is accepted by `decodeKey32` but rejected by the `TokenCrypto`
constructor's `hexToKey32`, so construction does not succeed for every key
of either form. -/
theorem C9_cex_base64_key_rejected :
    (b64Decode (jsTrim "QUFBQUFBQUFBQUFBQUFBQUFBQUFBQUFBQUFBQUFBQUE=")).length = 32 ∧
      TokenCrypto.hexToKey32 "QUFBQUFBQUFBQUFBQUFBQUFBQUFBQUFBQUFBQUFBQUE="
        = Except.error
            "TOKEN_ENCRYPTION_KEY must be 64 hex chars (32 bytes). Example: 64-char hex string." ∧
      EnvConfig.decodeKey32 "QUFBQUFBQUFBQUFBQUFBQUFBQUFBQUFBQUFBQUFBQUE="
        = Except.ok (List.replicate 32 65) := by
  refine ⟨by decide, by rfl, by rfl⟩

/-- C9 witness: a 64-hex key is accepted by both decoders with a 32-byte
result, and a base64-only key is accepted by `decodeKey32`. -/
theorem C9_key_forms_witness :
    (hexBytes (jsTrim
        "0000000000000000000000000000000000000000000000000000000000000000").data).length
        = 32 ∧
      EnvConfig.decodeKey32 "QUFBQUFBQUFBQUFBQUFBQUFBQUFBQUFBQUFBQUFBQUE="
        = Except.ok (b64Decode (jsTrim "QUFBQUFBQUFBQUFBQUFBQUFBQUFBQUFBQUFBQUFBQUE=")) :=
  ⟨((C9_key_forms
      "0000000000000000000000000000000000000000000000000000000000000000").1
      (by decide)).2.2,
    ((C9_key_forms "QUFBQUFBQUFBQUFBQUFBQUFBQUFBQUFBQUFBQUFBQUE=").2
      (by decide) (by decide)).1⟩

namespace TokenCrypto

/-- An AEAD primitive; node:crypto's aes-256-gcm is a platform library,
external to the repository, so it enters the model as an abstract pair:
`enc key iv plain = (ciphertext, tag)`, and `dec key iv tag ciphertext`
returns the plaintext or fails on authentication failure. -/
structure AEAD where
  enc : List Nat → List Nat → List Nat → List Nat × List Nat
  dec : List Nat → List Nat → List Nat → List Nat → Option (List Nat)

/-- `TokenCrypto.encrypt` at the byte level (the base64 transport —
`Buffer.toString("base64")` out, `Buffer.from(_, "base64")` back in — is
the identity on the byte sequence): emit `iv ‖ tag ‖ ciphertext` with the
fresh 12-byte IV supplied by `crypto.randomBytes(12)`. -/
def encryptBytes (A : AEAD) (key iv plain : List Nat) : List Nat :=
  iv ++ (A.enc key iv plain).2 ++ (A.enc key iv plain).1

/-- `TokenCrypto.decrypt` at the byte level: reject inputs shorter than
iv+tag (28 bytes), split `iv ‖ tag ‖ ciphertext` at offsets 12 and 28, and
decipher checking the authentication tag. -/
def decryptBytes (A : AEAD) (key : List Nat) (buf : List Nat) :
    Except String (List Nat) :=
  if buf.length < 12 + 16 then Except.error "Invalid encrypted payload (too short)"
  else
    match A.dec key (buf.take 12) ((buf.drop 12).take 16) (buf.drop 28) with
    | some plain => Except.ok plain
    | none => Except.error "Unsupported state or unable to authenticate data"

end TokenCrypto

/-- C3: assuming the AEAD primitive is correct (decryption inverts
encryption), authentic (decryption succeeds only on genuine encryptions)
and emits 16-byte tags, the wrapper satisfies: `decrypt (encrypt P) = P`
for every plaintext and every 12-byte IV; every input shorter than 28
bytes (iv plus tag) is rejected; and every input of valid length that
decrypts successfully is itself the genuine encryption of its result under
its own IV — so any tampered ciphertext that is not a genuine encryption
fails authentication. -/
theorem C3_encrypt_decrypt (A : TokenCrypto.AEAD) (key : List Nat)
    (hcorrect : ∀ iv plain,
      A.dec key iv (A.enc key iv plain).2 (A.enc key iv plain).1 = some plain)
    (hauth : ∀ iv tag ct p, A.dec key iv tag ct = some p →
      (A.enc key iv p).1 = ct ∧ (A.enc key iv p).2 = tag)
    (htag : ∀ iv plain, (A.enc key iv plain).2.length = 16) :
    (∀ plain iv, iv.length = 12 →
      TokenCrypto.decryptBytes A key (TokenCrypto.encryptBytes A key iv plain)
        = Except.ok plain) ∧
    (∀ buf, buf.length < 28 →
      TokenCrypto.decryptBytes A key buf
        = Except.error "Invalid encrypted payload (too short)") ∧
    (∀ buf p, 28 ≤ buf.length →
      TokenCrypto.decryptBytes A key buf = Except.ok p →
      buf = TokenCrypto.encryptBytes A key (buf.take 12) p) := by
  refine ⟨?_, ?_, ?_⟩
  · intro plain iv hiv
    set ct := (A.enc key iv plain).1 with hct
    set tag := (A.enc key iv plain).2 with htg
    have henc : TokenCrypto.encryptBytes A key iv plain = iv ++ tag ++ ct := rfl
    have hlen : (iv ++ tag ++ ct).length = 28 + ct.length := by
      simp [hiv, htag iv plain, ← htg]
      omega
    have htake12 : (iv ++ tag ++ ct).take 12 = iv := by
      rw [List.append_assoc]
      have := List.take_left iv (tag ++ ct)
      rwa [hiv] at this
    have hdrop12 : (iv ++ tag ++ ct).drop 12 = tag ++ ct := by
      rw [List.append_assoc]
      have := List.drop_left iv (tag ++ ct)
      rwa [hiv] at this
    have htake16 : (tag ++ ct).take 16 = tag := by
      have := List.take_left tag ct
      have h16 : tag.length = 16 := by rw [htg]; exact htag iv plain
      rwa [h16] at this
    have hdrop28 : (iv ++ tag ++ ct).drop 28 = ct := by
      have h28 : (iv ++ tag).length = 28 := by
        have h16 : tag.length = 16 := by rw [htg]; exact htag iv plain
        simp [hiv, h16]
      have := List.drop_left (iv ++ tag) ct
      rwa [h28] at this
    unfold TokenCrypto.decryptBytes
    rw [henc, if_neg (by omega), htake12, hdrop12, htake16, hdrop28]
    have hfin : A.dec key iv tag ct = some plain := by
      rw [hct, htg]
      exact hcorrect iv plain
    rw [hfin]
  · intro buf hlt
    unfold TokenCrypto.decryptBytes
    rw [if_pos (by omega)]
  · intro buf p hge hdec
    unfold TokenCrypto.decryptBytes at hdec
    rw [if_neg (by omega)] at hdec
    cases hd : A.dec key (buf.take 12) ((buf.drop 12).take 16) (buf.drop 28) with
    | none => rw [hd] at hdec; cases hdec
    | some q =>
      rw [hd] at hdec
      have hq : q = p := by injection hdec
      rw [hq] at hd
      obtain ⟨hct, htg⟩ := hauth (buf.take 12) ((buf.drop 12).take 16) (buf.drop 28) p hd
      unfold TokenCrypto.encryptBytes
      rw [hct, htg]
      have hsplit : buf.take 12 ++ (buf.drop 12).take 16 ++ buf.drop 28 = buf := by
        have h1 : buf.drop 28 = (buf.drop 12).drop 16 := by
          rw [List.drop_drop]
        rw [h1, List.append_assoc, List.take_append_drop, List.take_append_drop]
      rw [hsplit]

/-- A concrete AEAD used to instantiate the crypto theorem: the ciphertext
is the plaintext and the tag is sixteen copies of a checksum; decryption
recomputes and checks the tag. -/
def toyAEAD : TokenCrypto.AEAD where
  enc := fun key iv plain =>
    (plain, List.replicate 16 ((key.sum + iv.sum + plain.sum) % 256))
  dec := fun key iv tag ct =>
    if tag = List.replicate 16 ((key.sum + iv.sum + ct.sum) % 256) then some ct
    else none

/-- C3 witness: roundtrip, short-input rejection and the
genuine-encryption property at concrete inputs. -/
theorem C3_encrypt_decrypt_witness :
    TokenCrypto.decryptBytes toyAEAD [7]
        (TokenCrypto.encryptBytes toyAEAD [7]
          [0, 1, 2, 3, 4, 5, 6, 7, 8, 9, 10, 11] [104, 105])
      = Except.ok [104, 105] ∧
    TokenCrypto.decryptBytes toyAEAD [7] [1, 2, 3]
      = Except.error "Invalid encrypted payload (too short)" := by
  have h := C3_encrypt_decrypt toyAEAD [7]
    (fun iv plain => by simp [toyAEAD])
    (fun iv tag ct p hp => by
      simp only [toyAEAD] at hp
      split at hp
      · rename_i hcond
        have hp2 : ct = p := by injection hp
        subst hp2
        exact ⟨rfl, hcond.symm⟩
      · exact Option.noConfusion hp)
    (fun iv plain => by simp [toyAEAD])
  exact ⟨h.1 [104, 105] [0, 1, 2, 3, 4, 5, 6, 7, 8, 9, 10, 11] (by decide),
    h.2.1 [1, 2, 3] (by decide)⟩

namespace ProtoRegistry

/-- A decoded JS value as seen by `coerceEnums`: strings, numbers, arrays,
null, and anything else (opaque). -/
inductive JVal where
  | str : String → JVal
  | num : Int → JVal
  | arr : List JVal → JVal
  | nullv : JVal
  | other : Nat → JVal

/-- The resolved type of a protobuf field: an enum with its name-to-number
constants (`resolvedType instanceof protobuf.Enum`), or anything else. -/
inductive FieldType where
  | enumT : List (String × Int) → FieldType
  | notEnum : FieldType

/-- A field of a protobuf message type. -/
structure PField where
  name : String
  resolvedType : FieldType

/-- Coercion of one element of a repeated enum field: a string naming a
constant becomes its numeric value, anything else is unchanged. -/
def coerceEnumElem (values : List (String × Int)) (x : JVal) : JVal :=
  match x with
  | JVal.str s =>
    match mapGet values s with
    | some n => JVal.num n
    | none => JVal.str s
  | v => v

/-- One iteration of the `coerceEnums` field loop over the object being
built: skip null/undefined values and non-enum fields; map a string value
through the enum's constants when it names one; map each element of an
array value through `coerceEnumElem`. -/
def coerceField (out : List (String × JVal)) (f : PField) : List (String × JVal) :=
  match mapGet out f.name with
  | none => out
  | some JVal.nullv => out
  | some v =>
    match f.resolvedType with
    | FieldType.notEnum => out
    | FieldType.enumT values =>
      match v with
      | JVal.str s =>
        (match mapGet values s with
          | some n => mapSet out f.name (JVal.num n)
          | none => out)
      | JVal.arr xs => mapSet out f.name (JVal.arr (xs.map (coerceEnumElem values)))
      | _ => out

/-- `ProtoRegistry.coerceEnums` (proto-registry.js): the loop over the
message type's fields, on a copy of the input object. -/
def coerceEnums (fields : List PField) (obj : List (String × JVal)) :
    List (String × JVal) :=
  fields.foldl coerceField obj

end ProtoRegistry

theorem coerceField_get_ne (out : List (String × ProtoRegistry.JVal))
    (f : ProtoRegistry.PField) (k : String) (h : k ≠ f.name) :
    mapGet (ProtoRegistry.coerceField out f) k = mapGet out k := by
  unfold ProtoRegistry.coerceField
  repeat' split
  all_goals
    first
      | rfl
      | exact mapSet_get_ne out f.name k _ h

theorem coerceEnums_get_of_not_mem (fields : List ProtoRegistry.PField) :
    ∀ (obj : List (String × ProtoRegistry.JVal)) (k : String),
      k ∉ fields.map ProtoRegistry.PField.name →
      mapGet (ProtoRegistry.coerceEnums fields obj) k = mapGet obj k := by
  induction fields with
  | nil => intro obj k _; rfl
  | cons g gs ih =>
    intro obj k hk
    simp only [List.map_cons, List.mem_cons] at hk
    push_neg at hk
    unfold ProtoRegistry.coerceEnums at *
    simp only [List.foldl_cons]
    rw [ih (ProtoRegistry.coerceField obj g) k hk.2]
    exact coerceField_get_ne obj g k hk.1

theorem coerceField_get_self_congr (o1 o2 : List (String × ProtoRegistry.JVal))
    (f : ProtoRegistry.PField) (h : mapGet o1 f.name = mapGet o2 f.name) :
    mapGet (ProtoRegistry.coerceField o1 f) f.name
      = mapGet (ProtoRegistry.coerceField o2 f) f.name := by
  unfold ProtoRegistry.coerceField
  rw [h]
  cases hv : mapGet o2 f.name with
  | none =>
    dsimp only
    rw [h, hv]
  | some v =>
    cases v with
    | nullv =>
      dsimp only
      rw [h, hv]
    | str s =>
      cases f.resolvedType with
      | notEnum =>
        dsimp only
        rw [h, hv]
      | enumT values =>
        dsimp only
        cases mapGet values s with
        | none =>
          dsimp only
          rw [h, hv]
        | some n =>
          dsimp only
          rw [mapSet_get_self, mapSet_get_self]
    | arr xs =>
      cases f.resolvedType with
      | notEnum =>
        dsimp only
        rw [h, hv]
      | enumT values =>
        dsimp only
        rw [mapSet_get_self, mapSet_get_self]
    | num n =>
      cases f.resolvedType <;> dsimp only <;> rw [h, hv]
    | other t =>
      cases f.resolvedType <;> dsimp only <;> rw [h, hv]

theorem coerceEnums_get_self (fields : List ProtoRegistry.PField)
    (hnd : (fields.map ProtoRegistry.PField.name).Nodup)
    (f : ProtoRegistry.PField) (hf : f ∈ fields) :
    ∀ (obj : List (String × ProtoRegistry.JVal)),
      mapGet (ProtoRegistry.coerceEnums fields obj) f.name
        = mapGet (ProtoRegistry.coerceField obj f) f.name := by
  induction fields with
  | nil => cases hf
  | cons g gs ih =>
    intro obj
    simp only [List.map_cons, List.nodup_cons] at hnd
    unfold ProtoRegistry.coerceEnums at *
    simp only [List.foldl_cons]
    rcases List.mem_cons.mp hf with hfg | hfgs
    · subst hfg
      exact coerceEnums_get_of_not_mem gs (ProtoRegistry.coerceField obj f)
        f.name hnd.1
    · have hne : f.name ≠ g.name := by
        intro hh
        exact hnd.1 (hh ▸ List.mem_map_of_mem ProtoRegistry.PField.name hfgs)
      have h1 : mapGet (ProtoRegistry.coerceField obj g) f.name
          = mapGet obj f.name := coerceField_get_ne obj g f.name hne
      rw [ih hnd.2 hfgs (ProtoRegistry.coerceField obj g)]
      exact coerceField_get_self_congr (ProtoRegistry.coerceField obj g) obj f h1

/-- C10: for a message type with distinct field names, `coerceEnums`
replaces a string value of an enum-typed field (and the string elements of
a repeated enum-typed field) that names one of the enum's constants by the
constant's numeric value; a string that names no constant passes through
unchanged rather than failing; null/undefined, numbers and other non-string
values are left untouched; and fields whose resolved type is not an enum —
as well as keys not declared on the type — are never modified. -/
theorem C10_coerceEnums_contract (fields : List ProtoRegistry.PField)
    (obj : List (String × ProtoRegistry.JVal)) (f : ProtoRegistry.PField)
    (hnd : (fields.map ProtoRegistry.PField.name).Nodup) (hf : f ∈ fields) :
    (∀ k, k ∉ fields.map ProtoRegistry.PField.name →
      mapGet (ProtoRegistry.coerceEnums fields obj) k = mapGet obj k) ∧
    (f.resolvedType = ProtoRegistry.FieldType.notEnum →
      mapGet (ProtoRegistry.coerceEnums fields obj) f.name = mapGet obj f.name) ∧
    (∀ values s n, f.resolvedType = ProtoRegistry.FieldType.enumT values →
      mapGet obj f.name = some (ProtoRegistry.JVal.str s) →
      mapGet values s = some n →
      mapGet (ProtoRegistry.coerceEnums fields obj) f.name
        = some (ProtoRegistry.JVal.num n)) ∧
    (∀ values s, f.resolvedType = ProtoRegistry.FieldType.enumT values →
      mapGet obj f.name = some (ProtoRegistry.JVal.str s) →
      mapGet values s = none →
      mapGet (ProtoRegistry.coerceEnums fields obj) f.name
        = some (ProtoRegistry.JVal.str s)) ∧
    (∀ values xs, f.resolvedType = ProtoRegistry.FieldType.enumT values →
      mapGet obj f.name = some (ProtoRegistry.JVal.arr xs) →
      mapGet (ProtoRegistry.coerceEnums fields obj) f.name
          = some (ProtoRegistry.JVal.arr
              (xs.map (ProtoRegistry.coerceEnumElem values))) ∧
        (∀ s n, mapGet values s = some n →
          ProtoRegistry.coerceEnumElem values (ProtoRegistry.JVal.str s)
            = ProtoRegistry.JVal.num n) ∧
        (∀ s, mapGet values s = none →
          ProtoRegistry.coerceEnumElem values (ProtoRegistry.JVal.str s)
            = ProtoRegistry.JVal.str s) ∧
        (∀ x, (∀ s, x ≠ ProtoRegistry.JVal.str s) →
          ProtoRegistry.coerceEnumElem values x = x)) ∧
    ((mapGet obj f.name = none ∨
        mapGet obj f.name = some ProtoRegistry.JVal.nullv ∨
        (∃ n, mapGet obj f.name = some (ProtoRegistry.JVal.num n)) ∨
        (∃ t, mapGet obj f.name = some (ProtoRegistry.JVal.other t))) →
      mapGet (ProtoRegistry.coerceEnums fields obj) f.name = mapGet obj f.name) := by
  refine ⟨?_, ?_, ?_, ?_, ?_, ?_⟩
  · exact fun k hk => coerceEnums_get_of_not_mem fields obj k hk
  · intro hres
    rw [coerceEnums_get_self fields hnd f hf obj]
    unfold ProtoRegistry.coerceField
    rw [hres]
    cases hv : mapGet obj f.name with
    | none => dsimp only; exact hv
    | some v => cases v <;> dsimp only <;> rw [hv]
  · intro values s n hres hv hm
    rw [coerceEnums_get_self fields hnd f hf obj]
    unfold ProtoRegistry.coerceField
    rw [hres, hv]
    dsimp only
    rw [hm]
    exact mapSet_get_self obj f.name _
  · intro values s hres hv hm
    rw [coerceEnums_get_self fields hnd f hf obj]
    unfold ProtoRegistry.coerceField
    rw [hres, hv]
    dsimp only
    rw [hm]
    exact hv
  · intro values xs hres hv
    refine ⟨?_, ?_, ?_, ?_⟩
    · rw [coerceEnums_get_self fields hnd f hf obj]
      unfold ProtoRegistry.coerceField
      rw [hres, hv]
      dsimp only
      exact mapSet_get_self obj f.name _
    · intro s n hm
      unfold ProtoRegistry.coerceEnumElem
      dsimp only
      rw [hm]
    · intro s hm
      unfold ProtoRegistry.coerceEnumElem
      dsimp only
      rw [hm]
    · intro x hx
      cases x with
      | str s => exact absurd rfl (hx s)
      | num n => rfl
      | arr ys => rfl
      | nullv => rfl
      | other t => rfl
  · intro hv
    rw [coerceEnums_get_self fields hnd f hf obj]
    unfold ProtoRegistry.coerceField
    rcases hv with hv | hv | ⟨n, hv⟩ | ⟨t, hv⟩
    · rw [hv]; dsimp only; exact hv
    · rw [hv]; dsimp only; exact hv
    · rw [hv]
      cases f.resolvedType <;> dsimp only <;> exact hv
    · rw [hv]
      cases f.resolvedType <;> dsimp only <;> exact hv

/-- C10 witness: a concrete order object — the enum-typed `tradeSide`
string "BUY" is coerced to 1, the repeated enum field maps its string
elements, and the non-enum `volume` field is untouched. -/
theorem C10_coerceEnums_contract_witness :
    mapGet
        (ProtoRegistry.coerceEnums
          [⟨"tradeSide", ProtoRegistry.FieldType.enumT [("BUY", 1), ("SELL", 2)]⟩,
            ⟨"volume", ProtoRegistry.FieldType.notEnum⟩]
          [("tradeSide", ProtoRegistry.JVal.str "BUY"),
            ("volume", ProtoRegistry.JVal.num 1000)])
        "tradeSide"
      = some (ProtoRegistry.JVal.num 1) ∧
    mapGet
        (ProtoRegistry.coerceEnums
          [⟨"tradeSide", ProtoRegistry.FieldType.enumT [("BUY", 1), ("SELL", 2)]⟩,
            ⟨"volume", ProtoRegistry.FieldType.notEnum⟩]
          [("tradeSide", ProtoRegistry.JVal.str "BUY"),
            ("volume", ProtoRegistry.JVal.num 1000)])
        "volume"
      = some (ProtoRegistry.JVal.num 1000) :=
  ⟨(C10_coerceEnums_contract
      [⟨"tradeSide", ProtoRegistry.FieldType.enumT [("BUY", 1), ("SELL", 2)]⟩,
        ⟨"volume", ProtoRegistry.FieldType.notEnum⟩]
      [("tradeSide", ProtoRegistry.JVal.str "BUY"),
        ("volume", ProtoRegistry.JVal.num 1000)]
      ⟨"tradeSide", ProtoRegistry.FieldType.enumT [("BUY", 1), ("SELL", 2)]⟩
      (by decide) (by simp)).2.2.1
      [("BUY", 1), ("SELL", 2)] "BUY" 1 rfl rfl rfl,
    by
      have h := (C10_coerceEnums_contract
        [⟨"tradeSide", ProtoRegistry.FieldType.enumT [("BUY", 1), ("SELL", 2)]⟩,
          ⟨"volume", ProtoRegistry.FieldType.notEnum⟩]
        [("tradeSide", ProtoRegistry.JVal.str "BUY"),
          ("volume", ProtoRegistry.JVal.num 1000)]
        ⟨"volume", ProtoRegistry.FieldType.notEnum⟩
        (by decide) (by simp)).2.1 rfl
      rw [h]
      rfl⟩

namespace CTraderConnection

/-- The outcome a registered `send`'s promise is settled with. -/
inductive Outcome where
  | correlated : Outcome
  | fallback : Outcome
  | timedOut : String → Outcome
  | disconnected : String → Outcome
deriving DecidableEq, Repr

/-- The events that touch the pending-request map
(ctrader-connection.ts): a `send` that registers a pending request (its
clientMsgId and payload enum key), an inbound frame (the clientMsgId it
carries, if any, and whether its payload name is one of the three system
responses), the firing of a request's timer, and a disconnect — socket
close, `stop()` or `forceReconnect`, all of which run `failPending`. -/
inductive CEvent where
  | send : Nat → String → CEvent
  | inbound : Option Nat → Bool → CEvent
  | timerFire : Nat → CEvent
  | disconnect : CEvent
deriving DecidableEq, Repr

/-- The pending map (insertion-ordered, as a JS Map) and the log of
promise settlements. -/
structure ConnState where
  pending : List (Nat × String)
  completed : List (Nat × Outcome)
deriving DecidableEq, Repr

/-- The per-request timeout rejection message of `send`. -/
def timeoutMsg (key : String) (id : Nat) : String :=
  "Request timeout (" ++ key ++ ") clientMsgId=" ++ Nat.repr id

/-- `onData`'s best-effort match for system responses that do not echo a
clientMsgId: resolve the oldest pending request (first in Map iteration
order) and remove it. -/
def resolveOldest (st : ConnState) : ConnState :=
  match st.pending with
  | [] => st
  | e :: rest =>
    { pending := rest, completed := st.completed ++ [(e.1, Outcome.fallback)] }

/-- One transition of the pending-request machine: `send` appends an
entry; an inbound frame resolves the correlated entry when its id is
pending, else — for system payloads — the oldest pending entry, and
otherwise is an asynchronous event touching nothing; a timer firing for a
still-pending id removes it and rejects with the timeout message (the
timer of a completed request was cleared and cannot fire); a disconnect
rejects every pending request with "Disconnected" and clears the map. -/
def connStep (st : ConnState) (ev : CEvent) : ConnState :=
  match ev with
  | CEvent.send id key => { st with pending := st.pending ++ [(id, key)] }
  | CEvent.inbound cid isSystem =>
    match cid with
    | some i =>
      if i ∈ st.pending.map Prod.fst then
        { pending := st.pending.filter (fun e => e.1 != i),
          completed := st.completed ++ [(i, Outcome.correlated)] }
      else if isSystem then resolveOldest st else st
    | none => if isSystem then resolveOldest st else st
  | CEvent.timerFire id =>
    match st.pending.find? (fun e => e.1 == id) with
    | some e =>
      { pending := st.pending.filter (fun e2 => e2.1 != id),
        completed := st.completed ++ [(id, Outcome.timedOut (timeoutMsg e.2 id))] }
    | none => st
  | CEvent.disconnect =>
    { pending := [],
      completed := st.completed
        ++ st.pending.map (fun e => (e.1, Outcome.disconnected "Disconnected")) }

/-- Run a trace of events from the empty connection state. -/
def runConn (events : List CEvent) : ConnState :=
  events.foldl connStep { pending := [], completed := [] }

/-- The clientMsgIds registered by the `send` events of a trace. -/
def sentIds (events : List CEvent) : List Nat :=
  events.filterMap (fun ev => match ev with
    | CEvent.send id _ => some id
    | _ => none)

end CTraderConnection

theorem map_fst_filter_ne (P : List (Nat × String)) (i : Nat) :
    (P.filter (fun e => e.1 != i)).map Prod.fst
      = (P.map Prod.fst).filter (fun x => x != i) := by
  induction P with
  | nil => rfl
  | cons p P ih =>
    by_cases hp : p.1 = i
    · simp [List.filter_cons, hp, ih]
    · simp [List.filter_cons, hp, ih]

theorem removal_perm {P : List (Nat × String)} {i : Nat}
    (hnd : (P.map Prod.fst).Nodup) (hm : i ∈ P.map Prod.fst) :
    (((P.filter (fun e => e.1 != i)).map Prod.fst) ++ [i]).Perm (P.map Prod.fst) := by
  rw [map_fst_filter_ne, ← hnd.erase_eq_filter i]
  have h1 : (P.map Prod.fst).Perm (i :: (P.map Prod.fst).erase i) :=
    List.perm_cons_erase hm
  have h2 : ((P.map Prod.fst).erase i ++ [i]).Perm ([i] ++ (P.map Prod.fst).erase i) :=
    List.perm_append_comm
  exact h2.trans h1.symm

theorem resolveOldest_ids_perm (st : CTraderConnection.ConnState) (S : List Nat)
    (hS : ((st.pending.map Prod.fst) ++ (st.completed.map Prod.fst)).Perm S) :
    (((CTraderConnection.resolveOldest st).pending.map Prod.fst)
      ++ ((CTraderConnection.resolveOldest st).completed.map Prod.fst)).Perm S := by
  unfold CTraderConnection.resolveOldest
  cases hp : st.pending with
  | nil =>
    dsimp only
    exact hS
  | cons e rest =>
    rw [hp] at hS
    dsimp only
    rw [List.map_append]
    simp only [List.map_cons] at hS
    dsimp only [List.map_cons, List.map_nil]
    have h1 : (rest.map Prod.fst ++ ([(e.1, CTraderConnection.Outcome.fallback)].map Prod.fst)).Perm
        (([e.1] ++ rest.map Prod.fst)) := by
      exact List.perm_append_comm
    have h2 : ((rest.map Prod.fst)
        ++ (st.completed.map Prod.fst ++ [e.1])).Perm
        ((e.1 :: rest.map Prod.fst) ++ st.completed.map Prod.fst) := by
      have ha : (rest.map Prod.fst) ++ (st.completed.map Prod.fst ++ [e.1])
          = ((rest.map Prod.fst) ++ st.completed.map Prod.fst) ++ [e.1] := by
        rw [List.append_assoc]
      rw [ha]
      have hb : (((rest.map Prod.fst) ++ st.completed.map Prod.fst) ++ [e.1]).Perm
          ([e.1] ++ ((rest.map Prod.fst) ++ st.completed.map Prod.fst)) :=
        List.perm_append_comm
      have hc : [e.1] ++ ((rest.map Prod.fst) ++ st.completed.map Prod.fst)
          = (e.1 :: rest.map Prod.fst) ++ st.completed.map Prod.fst := by
        simp
      rw [hc] at hb
      exact hb
    exact h2.trans hS

theorem connStep_ids_perm (st : CTraderConnection.ConnState)
    (ev : CTraderConnection.CEvent) (S : List Nat)
    (hS : ((st.pending.map Prod.fst) ++ (st.completed.map Prod.fst)).Perm S)
    (hnd : S.Nodup) :
    (((CTraderConnection.connStep st ev).pending.map Prod.fst)
        ++ ((CTraderConnection.connStep st ev).completed.map Prod.fst)).Perm
      (S ++ CTraderConnection.sentIds [ev]) := by
  cases ev with
  | send i k =>
    show ((st.pending ++ [(i, k)]).map Prod.fst
        ++ st.completed.map Prod.fst).Perm (S ++ [i])
    rw [List.map_append]
    have h1 : ((st.pending.map Prod.fst ++ [(i, k)].map Prod.fst)
        ++ st.completed.map Prod.fst).Perm
        ((st.pending.map Prod.fst ++ st.completed.map Prod.fst) ++ [i]) := by
      rw [List.append_assoc, List.append_assoc]
      exact List.Perm.append_left (st.pending.map Prod.fst) List.perm_append_comm
    exact h1.trans (hS.append_right [i])
  | inbound cid isSystem =>
    have hs : CTraderConnection.sentIds
        [CTraderConnection.CEvent.inbound cid isSystem] = [] := rfl
    rw [hs, List.append_nil]
    unfold CTraderConnection.connStep
    cases cid with
    | some i =>
      dsimp only
      by_cases hmem : i ∈ st.pending.map Prod.fst
      · rw [if_pos hmem]
        dsimp only
        rw [List.map_append]
        have hall : ((st.pending.map Prod.fst) ++ (st.completed.map Prod.fst)).Nodup :=
          hS.nodup_iff.mpr hnd
        have hPnd : (st.pending.map Prod.fst).Nodup := (List.nodup_append.mp hall).1
        have h1 := removal_perm hPnd hmem
        have h2 : ((st.pending.filter (fun e => e.1 != i)).map Prod.fst
            ++ (st.completed.map Prod.fst ++ [(i, CTraderConnection.Outcome.correlated)].map Prod.fst)).Perm
            ((st.pending.map Prod.fst) ++ (st.completed.map Prod.fst)) := by
          have ha : (st.pending.filter (fun e => e.1 != i)).map Prod.fst
              ++ (st.completed.map Prod.fst ++ [(i, CTraderConnection.Outcome.correlated)].map Prod.fst)
              = ((st.pending.filter (fun e => e.1 != i)).map Prod.fst
                ++ st.completed.map Prod.fst) ++ [i] := by
            rw [List.append_assoc]
            rfl
          rw [ha]
          have hb : (((st.pending.filter (fun e => e.1 != i)).map Prod.fst
              ++ st.completed.map Prod.fst) ++ [i]).Perm
              (((st.pending.filter (fun e => e.1 != i)).map Prod.fst ++ [i])
                ++ st.completed.map Prod.fst) := by
            rw [List.append_assoc, List.append_assoc]
            exact List.Perm.append_left _ List.perm_append_comm
          exact hb.trans (h1.append_right (st.completed.map Prod.fst))
        exact h2.trans hS
      · rw [if_neg hmem]
        cases isSystem with
        | true => exact resolveOldest_ids_perm st S hS
        | false => exact hS
    | none =>
      dsimp only
      cases isSystem with
      | true => exact resolveOldest_ids_perm st S hS
      | false => exact hS
  | timerFire i =>
    have hs : CTraderConnection.sentIds
        [CTraderConnection.CEvent.timerFire i] = [] := rfl
    rw [hs, List.append_nil]
    unfold CTraderConnection.connStep
    dsimp only
    cases hf : st.pending.find? (fun e => e.1 == i) with
    | none =>
      dsimp only
      exact hS
    | some e =>
      dsimp only
      rw [List.map_append]
      have hei : e.1 = i := by
        have := List.find?_some hf
        simpa using this
      have hmem : i ∈ st.pending.map Prod.fst := by
        rw [← hei]
        exact List.mem_map_of_mem Prod.fst (List.mem_of_find?_eq_some hf)
      have hall : ((st.pending.map Prod.fst) ++ (st.completed.map Prod.fst)).Nodup :=
        hS.nodup_iff.mpr hnd
      have hPnd : (st.pending.map Prod.fst).Nodup := (List.nodup_append.mp hall).1
      have h1 := removal_perm hPnd hmem
      have h2 : ((st.pending.filter (fun e2 => e2.1 != i)).map Prod.fst
          ++ (st.completed.map Prod.fst
            ++ [(i, CTraderConnection.Outcome.timedOut
                  (CTraderConnection.timeoutMsg e.2 i))].map Prod.fst)).Perm
          ((st.pending.map Prod.fst) ++ (st.completed.map Prod.fst)) := by
        have ha : (st.pending.filter (fun e2 => e2.1 != i)).map Prod.fst
            ++ (st.completed.map Prod.fst
              ++ [(i, CTraderConnection.Outcome.timedOut
                    (CTraderConnection.timeoutMsg e.2 i))].map Prod.fst)
            = ((st.pending.filter (fun e2 => e2.1 != i)).map Prod.fst
              ++ st.completed.map Prod.fst) ++ [i] := by
          rw [List.append_assoc]
          rfl
        rw [ha]
        have hb : (((st.pending.filter (fun e2 => e2.1 != i)).map Prod.fst
            ++ st.completed.map Prod.fst) ++ [i]).Perm
            (((st.pending.filter (fun e2 => e2.1 != i)).map Prod.fst ++ [i])
              ++ st.completed.map Prod.fst) := by
          rw [List.append_assoc, List.append_assoc]
          exact List.Perm.append_left _ List.perm_append_comm
        exact hb.trans (h1.append_right (st.completed.map Prod.fst))
      exact h2.trans hS
  | disconnect =>
    have hs : CTraderConnection.sentIds [CTraderConnection.CEvent.disconnect] = [] := rfl
    rw [hs, List.append_nil]
    show (([] : List (Nat × String)).map Prod.fst
        ++ ((st.completed
          ++ st.pending.map (fun e => (e.1, CTraderConnection.Outcome.disconnected "Disconnected"))).map Prod.fst)).Perm S
    rw [List.map_append]
    have hmm : (st.pending.map
        (fun e => (e.1, CTraderConnection.Outcome.disconnected "Disconnected"))).map Prod.fst
        = st.pending.map Prod.fst := by
      rw [List.map_map]
      rfl
    rw [hmm]
    simp only [List.map_nil, List.nil_append]
    exact (List.perm_append_comm).trans hS

theorem runConn_ids_perm : ∀ (events : List CTraderConnection.CEvent)
    (st : CTraderConnection.ConnState) (S : List Nat),
    ((st.pending.map Prod.fst) ++ (st.completed.map Prod.fst)).Perm S →
    (S ++ CTraderConnection.sentIds events).Nodup →
    (((events.foldl CTraderConnection.connStep st).pending.map Prod.fst)
        ++ ((events.foldl CTraderConnection.connStep st).completed.map Prod.fst)).Perm
      (S ++ CTraderConnection.sentIds events) := by
  intro events
  induction events with
  | nil =>
    intro st S hS _
    have h0 : CTraderConnection.sentIds [] = [] := rfl
    rw [h0, List.append_nil]
    simpa using hS
  | cons ev evs ih =>
    intro st S hS hnd
    simp only [List.foldl_cons]
    have hsent : CTraderConnection.sentIds (ev :: evs)
        = CTraderConnection.sentIds [ev] ++ CTraderConnection.sentIds evs := by
      cases ev <;> rfl
    have hndS : S.Nodup := by
      have := List.nodup_append.mp hnd
      exact this.1
    have hstep := connStep_ids_perm st ev S hS hndS
    have hnd2 : ((S ++ CTraderConnection.sentIds [ev])
        ++ CTraderConnection.sentIds evs).Nodup := by
      have hh := hnd
      rw [hsent, ← List.append_assoc] at hh
      exact hh
    have hres := ih (CTraderConnection.connStep st ev)
      (S ++ CTraderConnection.sentIds [ev]) hstep hnd2
    rw [hsent, ← List.append_assoc]
    exact hres

theorem connStep_msgs (st : CTraderConnection.ConnState)
    (allowed : Nat → String → Prop) (ev : CTraderConnection.CEvent)
    (hev : ∀ i k, ev = CTraderConnection.CEvent.send i k → allowed i k)
    (hpend : ∀ e ∈ st.pending, allowed e.1 e.2)
    (htime : ∀ i m, (i, CTraderConnection.Outcome.timedOut m) ∈ st.completed →
      ∃ k, allowed i k ∧ m = CTraderConnection.timeoutMsg k i)
    (hdisc : ∀ i m, (i, CTraderConnection.Outcome.disconnected m) ∈ st.completed →
      m = "Disconnected") :
    (∀ e ∈ (CTraderConnection.connStep st ev).pending, allowed e.1 e.2) ∧
      (∀ i m, (i, CTraderConnection.Outcome.timedOut m)
          ∈ (CTraderConnection.connStep st ev).completed →
        ∃ k, allowed i k ∧ m = CTraderConnection.timeoutMsg k i) ∧
      (∀ i m, (i, CTraderConnection.Outcome.disconnected m)
          ∈ (CTraderConnection.connStep st ev).completed →
        m = "Disconnected") := by
  have hold : ∀ (st2 : CTraderConnection.ConnState),
      st2.pending = st.pending → st2.completed = st.completed →
      ((∀ e ∈ st2.pending, allowed e.1 e.2) ∧
        (∀ i m, (i, CTraderConnection.Outcome.timedOut m) ∈ st2.completed →
          ∃ k, allowed i k ∧ m = CTraderConnection.timeoutMsg k i) ∧
        (∀ i m, (i, CTraderConnection.Outcome.disconnected m) ∈ st2.completed →
          m = "Disconnected")) := by
    intro st2 h1 h2
    rw [h1, h2]
    exact ⟨hpend, htime, hdisc⟩
  have hro : (∀ e ∈ (CTraderConnection.resolveOldest st).pending, allowed e.1 e.2) ∧
      (∀ i m, (i, CTraderConnection.Outcome.timedOut m)
          ∈ (CTraderConnection.resolveOldest st).completed →
        ∃ k, allowed i k ∧ m = CTraderConnection.timeoutMsg k i) ∧
      (∀ i m, (i, CTraderConnection.Outcome.disconnected m)
          ∈ (CTraderConnection.resolveOldest st).completed →
        m = "Disconnected") := by
    unfold CTraderConnection.resolveOldest
    cases hp : st.pending with
    | nil => exact ⟨hpend, htime, hdisc⟩
    | cons e0 rest =>
      dsimp only
      refine ⟨?_, ?_, ?_⟩
      · intro e he
        exact hpend e (by rw [hp]; exact List.mem_cons_of_mem e0 he)
      · intro i m hm
        rcases List.mem_append.mp hm with hm | hm
        · exact htime i m hm
        · simp at hm
      · intro i m hm
        rcases List.mem_append.mp hm with hm | hm
        · exact hdisc i m hm
        · simp at hm
  cases ev with
  | send i k =>
    unfold CTraderConnection.connStep
    dsimp only
    refine ⟨?_, htime, hdisc⟩
    intro e he
    rcases List.mem_append.mp he with he | he
    · exact hpend e he
    · have : e = (i, k) := by simpa using he
      rw [this]
      exact hev i k rfl
  | inbound cid isSystem =>
    unfold CTraderConnection.connStep
    cases cid with
    | some i =>
      dsimp only
      by_cases hmem : i ∈ st.pending.map Prod.fst
      · rw [if_pos hmem]
        refine ⟨?_, ?_, ?_⟩
        · intro e he
          exact hpend e (List.mem_of_mem_filter he)
        · intro i2 m hm
          rcases List.mem_append.mp hm with hm | hm
          · exact htime i2 m hm
          · simp at hm
        · intro i2 m hm
          rcases List.mem_append.mp hm with hm | hm
          · exact hdisc i2 m hm
          · simp at hm
      · rw [if_neg hmem]
        cases isSystem with
        | true => exact hro
        | false => exact hold st rfl rfl
    | none =>
      dsimp only
      cases isSystem with
      | true => exact hro
      | false => exact hold st rfl rfl
  | timerFire i =>
    unfold CTraderConnection.connStep
    dsimp only
    cases hf : st.pending.find? (fun e => e.1 == i) with
    | none => exact hold st rfl rfl
    | some e =>
      dsimp only
      have hei : e.1 = i := by
        have := List.find?_some hf
        simpa using this
      have hein : e ∈ st.pending := List.mem_of_find?_eq_some hf
      refine ⟨?_, ?_, ?_⟩
      · intro e2 he2
        exact hpend e2 (List.mem_of_mem_filter he2)
      · intro i2 m hm
        rcases List.mem_append.mp hm with hm | hm
        · exact htime i2 m hm
        · have hpair : (i2, CTraderConnection.Outcome.timedOut m)
              = (i, CTraderConnection.Outcome.timedOut
                  (CTraderConnection.timeoutMsg e.2 i)) := by
            simpa using hm
          have hi2 : i2 = i := congrArg Prod.fst hpair
          have hmm : m = CTraderConnection.timeoutMsg e.2 i := by
            have := congrArg Prod.snd hpair
            simpa using this
          refine ⟨e.2, ?_, ?_⟩
          · rw [hi2, ← hei]
            exact hpend e hein
          · rw [hmm, hi2]
      · intro i2 m hm
        rcases List.mem_append.mp hm with hm | hm
        · exact hdisc i2 m hm
        · simp at hm
  | disconnect =>
    unfold CTraderConnection.connStep
    dsimp only
    refine ⟨by intro e he; simp at he, ?_, ?_⟩
    · intro i m hm
      rcases List.mem_append.mp hm with hm | hm
      · exact htime i m hm
      · rcases List.mem_map.mp hm with ⟨e, _, hpair⟩
        have := congrArg Prod.snd hpair
        simp at this
    · intro i m hm
      rcases List.mem_append.mp hm with hm | hm
      · exact hdisc i m hm
      · rcases List.mem_map.mp hm with ⟨e, _, hpair⟩
        have := congrArg Prod.snd hpair
        simpa using this.symm

theorem runConn_msgs : ∀ (events : List CTraderConnection.CEvent)
    (st : CTraderConnection.ConnState) (allowed : Nat → String → Prop),
    (∀ i k, CTraderConnection.CEvent.send i k ∈ events → allowed i k) →
    (∀ e ∈ st.pending, allowed e.1 e.2) →
    (∀ i m, (i, CTraderConnection.Outcome.timedOut m) ∈ st.completed →
      ∃ k, allowed i k ∧ m = CTraderConnection.timeoutMsg k i) →
    (∀ i m, (i, CTraderConnection.Outcome.disconnected m) ∈ st.completed →
      m = "Disconnected") →
    ((∀ e ∈ (events.foldl CTraderConnection.connStep st).pending, allowed e.1 e.2) ∧
      (∀ i m, (i, CTraderConnection.Outcome.timedOut m)
          ∈ (events.foldl CTraderConnection.connStep st).completed →
        ∃ k, allowed i k ∧ m = CTraderConnection.timeoutMsg k i) ∧
      (∀ i m, (i, CTraderConnection.Outcome.disconnected m)
          ∈ (events.foldl CTraderConnection.connStep st).completed →
        m = "Disconnected")) := by
  intro events
  induction events with
  | nil =>
    intro st allowed _ hpend htime hdisc
    exact ⟨hpend, htime, hdisc⟩
  | cons ev evs ih =>
    intro st allowed hall hpend htime hdisc
    simp only [List.foldl_cons]
    have hstep := connStep_msgs st allowed ev
      (fun i k h => hall i k (by rw [← h]; exact List.mem_cons_self ev evs))
      hpend htime hdisc
    exact ih (CTraderConnection.connStep st ev) allowed
      (fun i k h => hall i k (List.mem_cons_of_mem ev h))
      hstep.1 hstep.2.1 hstep.2.2

theorem sentIds_append_disconnect (events : List CTraderConnection.CEvent) :
    CTraderConnection.sentIds (events ++ [CTraderConnection.CEvent.disconnect])
      = CTraderConnection.sentIds events := by
  unfold CTraderConnection.sentIds
  rw [List.filterMap_append]
  simp

/-- C1 (amended): over every trace of pending-map events whose sends carry
distinct clientMsgIds, each registered send is settled at most once —
with the correlated response, with an uncorrelated system frame matched
best-effort as the oldest pending request, with the timeout rejection
`Request timeout (<key>) clientMsgId=<id>`, or with a `Disconnected`
rejection — and never zero times: a send not yet settled is still pending
with its timer armed, and as soon as a disconnect runs every sent id is
settled. Settlements only happen for registered sends, and the timeout and
disconnect messages have the stated shapes. -/
theorem C1_send_settled_exactly_once (events : List CTraderConnection.CEvent)
    (hnd : (CTraderConnection.sentIds events).Nodup) :
    (((CTraderConnection.runConn events).pending.map Prod.fst)
        ++ ((CTraderConnection.runConn events).completed.map Prod.fst)).Perm
      (CTraderConnection.sentIds events) ∧
    ((CTraderConnection.runConn events).completed.map Prod.fst).Nodup ∧
    (∀ i, i ∈ (CTraderConnection.runConn events).completed.map Prod.fst →
      i ∈ CTraderConnection.sentIds events) ∧
    (∀ i, i ∈ CTraderConnection.sentIds events →
      (i ∈ (CTraderConnection.runConn events).pending.map Prod.fst ↔
        ¬ i ∈ (CTraderConnection.runConn events).completed.map Prod.fst)) ∧
    (∀ i, i ∈ CTraderConnection.sentIds events →
      i ∈ (CTraderConnection.runConn
          (events ++ [CTraderConnection.CEvent.disconnect])).completed.map Prod.fst) ∧
    (∀ i m, (i, CTraderConnection.Outcome.timedOut m)
        ∈ (CTraderConnection.runConn events).completed →
      ∃ k, CTraderConnection.CEvent.send i k ∈ events ∧
        m = CTraderConnection.timeoutMsg k i) ∧
    (∀ i m, (i, CTraderConnection.Outcome.disconnected m)
        ∈ (CTraderConnection.runConn events).completed → m = "Disconnected") := by
  have ha : (((CTraderConnection.runConn events).pending.map Prod.fst)
      ++ ((CTraderConnection.runConn events).completed.map Prod.fst)).Perm
      (CTraderConnection.sentIds events) := by
    have := runConn_ids_perm events { pending := [], completed := [] } []
      (by simp) (by simpa using hnd)
    simpa using this
  have hall : (((CTraderConnection.runConn events).pending.map Prod.fst)
      ++ ((CTraderConnection.runConn events).completed.map Prod.fst)).Nodup :=
    ha.nodup_iff.mpr hnd
  have hparts := List.nodup_append.mp hall
  have hmsgs := runConn_msgs events { pending := [], completed := [] }
    (fun i k => CTraderConnection.CEvent.send i k ∈ events)
    (fun _ _ h => h)
    (by intro e he; simp at he)
    (by intro i m hm; simp at hm)
    (by intro i m hm; simp at hm)
  refine ⟨ha, hparts.2.1, ?_, ?_, ?_, hmsgs.2.1, hmsgs.2.2⟩
  · intro i hi
    exact ha.mem_iff.mp (List.mem_append_right _ hi)
  · intro i hi
    have hio : i ∈ ((CTraderConnection.runConn events).pending.map Prod.fst)
        ++ ((CTraderConnection.runConn events).completed.map Prod.fst) :=
      ha.mem_iff.mpr hi
    constructor
    · intro hP
      exact hparts.2.2 hP
    · intro hnC
      rcases List.mem_append.mp hio with h | h
      · exact h
      · exact absurd h hnC
  · intro i hi
    have hnd2 : (CTraderConnection.sentIds
        (events ++ [CTraderConnection.CEvent.disconnect])).Nodup := by
      rw [sentIds_append_disconnect]
      exact hnd
    have ha2 := runConn_ids_perm (events ++ [CTraderConnection.CEvent.disconnect])
      { pending := [], completed := [] } [] (by simp)
      (by simpa [sentIds_append_disconnect] using hnd)
    have hrun : CTraderConnection.runConn (events ++ [CTraderConnection.CEvent.disconnect])
        = CTraderConnection.connStep (CTraderConnection.runConn events)
            CTraderConnection.CEvent.disconnect := by
      unfold CTraderConnection.runConn
      rw [List.foldl_append]
      rfl
    have hpempty : (CTraderConnection.runConn
        (events ++ [CTraderConnection.CEvent.disconnect])).pending = [] := by
      rw [hrun]
      rfl
    have ha3 : (((CTraderConnection.runConn
        (events ++ [CTraderConnection.CEvent.disconnect])).completed.map Prod.fst)).Perm
        (CTraderConnection.sentIds events) := by
      have hh : (((CTraderConnection.runConn
          (events ++ [CTraderConnection.CEvent.disconnect])).pending.map Prod.fst)
          ++ ((CTraderConnection.runConn
            (events ++ [CTraderConnection.CEvent.disconnect])).completed.map Prod.fst)).Perm
          ([] ++ CTraderConnection.sentIds
            (events ++ [CTraderConnection.CEvent.disconnect])) := ha2
      rw [hpempty] at hh
      simpa [sentIds_append_disconnect] using hh
    exact ha3.mem_iff.mpr hi

/-- C1 counterexample: the claim's three outcomes are not exhaustive — an
inbound system frame that carries no clientMsgId resolves the oldest
pending request best-effort, so that send's promise is resolved with a
response that was not correlated to it, which is none of the claim's three
outcomes. -/
theorem C1_cex_fallback_resolution :
    CTraderConnection.runConn
        [CTraderConnection.CEvent.send 2 "PROTO_OA_TRADER_REQ",
          CTraderConnection.CEvent.inbound none true]
      = { pending := [],
          completed := [(2, CTraderConnection.Outcome.fallback)] } ∧
    (∀ m, CTraderConnection.Outcome.fallback ≠ CTraderConnection.Outcome.correlated ∧
      CTraderConnection.Outcome.fallback ≠ CTraderConnection.Outcome.timedOut m ∧
      CTraderConnection.Outcome.fallback ≠ CTraderConnection.Outcome.disconnected m) := by
  constructor
  · rfl
  · intro m
    refine ⟨by simp, by simp, by simp⟩

/-- C1 witness: a concrete trace — two sends, a correlated response for
the first, a timer firing for the second — settles both ids exactly once. -/
theorem C1_send_settled_exactly_once_witness :
    (((CTraderConnection.runConn
          [CTraderConnection.CEvent.send 1 "PROTO_OA_TRADER_REQ",
            CTraderConnection.CEvent.send 2 "PROTO_OA_SYMBOLS_LIST_REQ",
            CTraderConnection.CEvent.inbound (some 1) false,
            CTraderConnection.CEvent.timerFire 2]).pending.map Prod.fst)
        ++ ((CTraderConnection.runConn
          [CTraderConnection.CEvent.send 1 "PROTO_OA_TRADER_REQ",
            CTraderConnection.CEvent.send 2 "PROTO_OA_SYMBOLS_LIST_REQ",
            CTraderConnection.CEvent.inbound (some 1) false,
            CTraderConnection.CEvent.timerFire 2]).completed.map Prod.fst)).Perm
      (CTraderConnection.sentIds
        [CTraderConnection.CEvent.send 1 "PROTO_OA_TRADER_REQ",
          CTraderConnection.CEvent.send 2 "PROTO_OA_SYMBOLS_LIST_REQ",
          CTraderConnection.CEvent.inbound (some 1) false,
          CTraderConnection.CEvent.timerFire 2]) :=
  (C1_send_settled_exactly_once
    [CTraderConnection.CEvent.send 1 "PROTO_OA_TRADER_REQ",
      CTraderConnection.CEvent.send 2 "PROTO_OA_SYMBOLS_LIST_REQ",
      CTraderConnection.CEvent.inbound (some 1) false,
      CTraderConnection.CEvent.timerFire 2] (by decide)).1
